import Mathlib

/-!
# Extraction engine of `archive/zip/zip.go`

A shallow embedding of `Matched`, `extractSymlink`, `extractFile` and
`Extract` from `src/archive/zip/zip.go`, and theorems about them.

Conventions of the embedding.

* A Go `string` / `[]byte` is the list of its bytes (`GoString`).
* Go path functions follow `path/filepath` on a Unix target (separator `/`,
  no volume names).
* A Go call that touches the outside world (`os.MkdirAll`,
  `basics.SymbolicLink`, `basics.WriteDisk`, the `OnEntry` callback) is
  answered by an oracle that sees the whole history of earlier calls, and the
  call is appended to that history together with its answer.
* A payload stream is the bytes it delivers, the way it ends, and whether that
  end is reported with the last bytes or by the read after them.
* A Go run-time panic is an outcome of its own (`Outcome.panic`).
-/

namespace Zip

/-! ## Go strings -/

/-- A Go string or byte slice: its bytes, in order. -/
abbrev GoString := List Nat

/-- UTF-8 encoding of one character, as Go stores it in a string. -/
def utf8 (c : Char) : GoString :=
  let n := c.toNat
  if n < 0x80 then [n]
  else if n < 0x800 then [0xC0 + n / 64, 0x80 + n % 64]
  else if n < 0x10000 then [0xE0 + n / 4096, 0x80 + n / 64 % 64, 0x80 + n % 64]
  else [0xF0 + n / 262144, 0x80 + n / 4096 % 64, 0x80 + n / 64 % 64, 0x80 + n % 64]

/-- The Go string written as the literal `s`. -/
def str (s : String) : GoString :=
  s.toList.flatMap utf8

/-- The path separator `/`. -/
def Separator : Nat := 47

/-- The byte `.`. -/
def Dot : Nat := 46

/-! ## `strings.TrimSpace` -/

/-- Go's `asciiSpace` table: tab, newline, vertical tab, form feed, carriage
return and space. -/
def asciiSpace (c : Nat) : Bool :=
  c == 9 || c == 10 || c == 11 || c == 12 || c == 13 || c == 32

/-- Go `utf8.RuneSelf`: bytes below it are single-byte runes. -/
def RuneSelf : Nat := 0x80

/-- The Unicode-aware fallbacks of `strings.TrimSpace`, which it calls as soon
as it meets a byte that is not ASCII. They are library code outside the
repository and stay abstract. -/
structure Unicode where
  /-- Go `strings.TrimFunc(s, unicode.IsSpace)`. -/
  TrimFunc : GoString → GoString
  /-- Go `strings.TrimRightFunc(s, unicode.IsSpace)`. -/
  TrimRightFunc : GoString → GoString

/-- The second loop of `strings.TrimSpace`, on `s[start:]`: scan from the end
past ASCII white space. -/
def trimSpaceRight (u : Unicode) (s : GoString) : GoString :=
  match s.reverse.dropWhile asciiSpace with
  | [] => []
  | c :: cs => if c ≥ RuneSelf then u.TrimRightFunc (c :: cs).reverse else (c :: cs).reverse

/-- Go `strings.TrimSpace`: the ASCII fast path from both ends, the Unicode
fallback at the first byte that is not ASCII. -/
def TrimSpace (u : Unicode) (s : GoString) : GoString :=
  match s.dropWhile asciiSpace with
  | [] => []
  | c :: cs => if c ≥ RuneSelf then u.TrimFunc (c :: cs) else trimSpaceRight u (c :: cs)

/-- The ASCII white space of `unicode.IsSpace`: tab, line feed, vertical tab,
form feed, carriage return and space. -/
def whiteSpace : List Nat := [9, 10, 11, 12, 13, 32]

/-- A byte that is ASCII and not white space. -/
def edgeByte (c : Nat) : Bool :=
  decide (c < 128) && !whiteSpace.contains c

/-- A text that starts and ends with an ASCII byte that is not white space. -/
def AsciiEdged (core : GoString) : Bool :=
  match core, core.reverse with
  | c :: _, c' :: _ => edgeByte c && edgeByte c'
  | _, _ => false

/-! ## `path/filepath` on Unix -/

/-- Split a path at every separator; `a//b` has an empty element. -/
def splitPath : GoString → List GoString
  | [] => [[]]
  | c :: cs =>
    if c = Separator then [] :: splitPath cs
    else match splitPath cs with
      | [] => [[c]]
      | s :: ss => (c :: s) :: ss

/-- Whether `filepath.Clean` can backtrack over the last element written
(`out.w > dotdot`): there is one and it is not a kept `..`. -/
def canBacktrack (out : List GoString) : Bool :=
  match out with
  | [] => false
  | top :: _ => top != [Dot, Dot]

/-- One step of `filepath.Clean` over the elements written so far (`out`, most
recent first): empty and `.` elements vanish; `..` removes the last real
element when there is one, else is kept in front of a path that is not rooted
and dropped at the root; any other element is appended. -/
def cleanStep (rooted : Bool) (out : List GoString) (e : GoString) : List GoString :=
  if e = [] then out
  else if e = [Dot] then out
  else if e = [Dot, Dot] then
    if canBacktrack out then out.tail
    else if !rooted then e :: out
    else out
  else e :: out

/-- Elements joined by the separator. -/
def joinElems : List GoString → GoString
  | [] => []
  | [e] => e
  | e :: es => e ++ Separator :: joinElems es

/-- Go `filepath.IsAbs`: the path starts with the separator. -/
def IsAbs (path : GoString) : Bool :=
  match path with
  | [] => false
  | c :: _ => c == Separator

/-- The path written from the elements `st` kept by `filepath.Clean` (most
recent first): the separator in front of a rooted path, `.` for an empty path
that is not rooted. -/
def renderPath (rooted : Bool) (st : List GoString) : GoString :=
  if rooted then Separator :: joinElems st.reverse
  else if st.reverse = [] then [Dot]
  else joinElems st.reverse

/-- The elements `filepath.Clean` keeps of `path`, most recent first. -/
def cleanStack (path : GoString) : List GoString :=
  (splitPath path).foldl (cleanStep (IsAbs path)) []

/-- Go `filepath.Clean`: the shortest path equivalent to `path` by purely lexical
processing. -/
def Clean (path : GoString) : GoString :=
  if path = [] then [Dot]
  else renderPath (IsAbs path) (cleanStack path)

/-- Go `filepath.Join` of two elements: empty elements in front are ignored, the
rest is joined by the separator and cleaned; all empty gives the empty string. -/
def Join (a b : GoString) : GoString :=
  if a ≠ [] then Clean (a ++ Separator :: b)
  else if b ≠ [] then Clean b
  else []

/-- Go `filepath.Dir`: all but the last element of `path`, cleaned. -/
def Dir (path : GoString) : GoString :=
  Clean (path.reverse.dropWhile (fun c => c != Separator)).reverse

/-- An element without a separator. -/
def SepFree (e : GoString) : Prop := Separator ∉ e

/-- An element that `filepath.Clean` appends as it is. -/
def Normal (e : GoString) : Prop :=
  e ≠ [] ∧ e ≠ [Dot] ∧ e ≠ [Dot, Dot] ∧ SepFree e

/-- The shape of the elements kept by `filepath.Clean`: real elements on top
of kept `..` elements, which only a path that is not rooted has. -/
def CleanStack (rooted : Bool) (st : List GoString) : Prop :=
  ∃ normals k, st = normals ++ List.replicate k [Dot, Dot] ∧ (rooted = true → k = 0) ∧
    ∀ e ∈ normals, Normal e

/-! ## `Matched` -/

/-- Indexing `buf[i]` of Go: `none` stands for the index-out-of-range panic. -/
def index (buf : GoString) (i : Nat) : Option Nat :=
  buf[i]?

/-- Short-circuit `&&` over operands that may panic: the right operand is
evaluated only when the left one is true. -/
def andThen (a : Option Bool) (b : Unit → Option Bool) : Option Bool :=
  match a with
  | none => none
  | some false => some false
  | some true => b ()

/-- Short-circuit `||` over operands that may panic. -/
def orElse (a : Option Bool) (b : Unit → Option Bool) : Option Bool :=
  match a with
  | none => none
  | some true => some true
  | some false => b ()

/-- The comparison `buf[i] == v`. -/
def byteIs (buf : GoString) (i v : Nat) : Option Bool :=
  (index buf i).map (fun b => b == v)

/-- Function `Matched` (zip.go:40): the ZIP magic test; `none` would be a panic. -/
def Matched (buf : GoString) : Option Bool :=
  andThen (some (decide (buf.length > 3))) fun _ =>
  andThen (byteIs buf 0 0x50) fun _ =>
  andThen (byteIs buf 1 0x4B) fun _ =>
  andThen
    (orElse (byteIs buf 2 0x3) fun _ =>
     orElse (byteIs buf 2 0x5) fun _ => byteIs buf 2 0x7) fun _ =>
    (orElse (byteIs buf 3 0x4) fun _ =>
     orElse (byteIs buf 3 0x6) fun _ => byteIs buf 3 0x8)

/-! ## Errors, streams, archive entries -/

/-- Go `error` values that the engine can meet. -/
inductive Error
  /-- Go `basics.ErrRelativePathEscape`. -/
  | ErrRelativePathEscape
  /-- Go `zip.ErrAlgorithm`: no decompressor registered for the method code. -/
  | ErrAlgorithm
  /-- Go `zip.ErrChecksum`: the payload does not match its recorded CRC. -/
  | ErrChecksum
  /-- Any other error, told apart by a code. -/
  | other (code : Nat)
  deriving DecidableEq

/-- What a Go function of result type `error` does: return `nil`, return an
error, or panic. -/
inductive Outcome
  | nil
  | error (e : Error)
  | panic
  deriving DecidableEq

/-- The Go `error` result `res` as an outcome. -/
def Outcome.ofError (res : Option Error) : Outcome :=
  match res with
  | none => .nil
  | some e => .error e

/-- An open payload stream (`io.ReadCloser`): it delivers `data` and then
ends, with end of file (`fail = none`) or with an error. `atLast` tells when
the end is reported: by the very `Read` that delivers the last bytes (as the
checksum reader of archive/zip over a flate stream can do), or only by the
`Read` after it (as a stored payload does). -/
structure Stream where
  data : GoString
  fail : Option Error
  atLast : Bool
  deriving DecidableEq

/-- Go `ioutil.ReadAll(io.LimitReader(r, n))`. The limited reader asks `r` for at
most `n` bytes in all and reports end of file by itself once it has them. So a
stream longer than `n` gives its first `n` bytes and no error; a stream
shorter than `n` gives its data and its own end; and a stream of exactly `n`
bytes gives its data with its own end when that end comes with the last bytes,
and with no error when the end would only come with the next `Read`, which
is never made. -/
def ReadAllLimit (r : Stream) (n : Nat) : GoString × Option Error :=
  if n < r.data.length then (r.data.take n, none)
  else if n = r.data.length ∧ (n = 0 ∨ r.atLast = false) then (r.data, none)
  else (r.data, r.fail)

/-- Go `os.ModeDir`. -/
def ModeDir : Nat := 2 ^ 31

/-- Go `os.ModeSymlink`. -/
def ModeSymlink : Nat := 2 ^ 27

/-- Go `fi.IsDir()`, which is `fi.Mode()&os.ModeDir != 0`. -/
def IsDir (mode : Nat) : Bool :=
  mode &&& ModeDir != 0

/-- Go `CompressionMethod` (zip.go:16), a `uint16` code. -/
abbrev CompressionMethod := Nat

/-- An entry of the archive (`*zip.File`), read-only for the engine. -/
structure File where
  /-- Go `file.Name`, untrusted. -/
  Name : GoString
  /-- Go `file.FileInfo().Mode()`, the same as `file.FileHeader.Mode()`. -/
  Mode : Nat
  /-- Go `file.Method`, the compression method code. -/
  Method : CompressionMethod
  /-- The decoded payload stream, or the error met locating it. -/
  body : Except Error Stream

/-- The compression method codes named in zip.go:21-31. -/
def Store : CompressionMethod := 0
def Deflate : CompressionMethod := 8
def BZIP2 : CompressionMethod := 12
def LZMA : CompressionMethod := 14
def LZMA2 : CompressionMethod := 33
def ZSTD : CompressionMethod := 93
def XZ : CompressionMethod := 95
def JPEG : CompressionMethod := 96
def WavPack : CompressionMethod := 97
def PPMd : CompressionMethod := 98
def AES : CompressionMethod := 99

/-! ## The outside world -/

/-- One call out of the engine, with its answer. -/
inductive Event
  /-- Go `zf.Open()` on the entry of that name. -/
  | Open (name : GoString) (res : Option Error)
  /-- Go `os.MkdirAll(path, perm)`. -/
  | MkdirAll (path : GoString) (perm : Nat) (res : Option Error)
  /-- Go `e.es.OnEntry(name, fi)`, with `fi.Mode()`. -/
  | OnEntry (name : GoString) (mode : Nat) (res : Option Error)
  /-- Go `basics.SymbolicLink(oldname, newname)`. -/
  | SymbolicLink (oldname newname : GoString) (res : Option Error)
  /-- Go `basics.WriteDisk(r, path, perm)`. -/
  | WriteDisk (r : Stream) (path : GoString) (perm : Nat) (res : Option Error)
  deriving DecidableEq

/-- The calls made so far, oldest first. -/
abbrev History := List Event

/-- Everything the engine calls that is not in zip.go. Each effectful call is
answered from the history of earlier calls, so an answer may depend on what
was done before. -/
structure Env where
  /-- The Unicode fallbacks of `strings.TrimSpace`. -/
  unicode : Unicode
  /-- Whether the registry holds a decompressor for a method code. -/
  decompressor : CompressionMethod → Bool
  /-- Go `basics.IsRelativePath(basepath, childpath)`. -/
  IsRelativePath : GoString → GoString → Bool
  /-- Go `os.MkdirAll`. -/
  MkdirAll : History → GoString → Nat → Option Error
  /-- Go `basics.SymbolicLink`. -/
  SymbolicLink : History → GoString → GoString → Option Error
  /-- Go `basics.WriteDisk`. -/
  WriteDisk : History → Stream → GoString → Nat → Option Error

/-- Go `basics.ExtractSetting`. -/
structure ExtractSetting where
  IgnoreError : Bool
  /-- The callback, `none` for a nil func. -/
  OnEntry : Option (History → GoString → File → Option Error)

/-- Go `zf.Open()` of archive/zip: the error met locating the body, else
`ErrAlgorithm` when no decompressor is registered for the method, else the
stream. On an error the returned reader is nil. -/
def File.Open (env : Env) (zf : File) : Except Error Stream :=
  match zf.body with
  | .error e => .error e
  | .ok r => if env.decompressor zf.Method then .ok r else .error .ErrAlgorithm

/-- The cap of `io.LimitReader` in `extractSymlink` (zip.go:84). -/
def linkCap : Nat := 32678

/-! ## The engine -/

/-- Function `extractSymlink` (zip.go:78). -/
def extractSymlink (env : Env) (h : History) (p _destination : GoString) (zf : File) :
    History × Outcome :=
  match zf.Open env with
  | .error err => (h ++ [.Open zf.Name (some err)], .error err)
  | .ok r =>
    let h1 := h ++ [.Open zf.Name none]
    match ReadAllLimit r linkCap with
    | (_, some err) => (h1, .error err)
    | (lnk, none) =>
      let lnkp := TrimSpace env.unicode lnk
      if IsAbs lnkp then
        let res := env.SymbolicLink h1 (Clean lnkp) p
        (h1 ++ [.SymbolicLink (Clean lnkp) p res], .ofError res)
      else
        let oldname := Join (Dir p) lnkp
        let res := env.SymbolicLink h1 oldname p
        (h1 ++ [.SymbolicLink oldname p res], .ofError res)

/-- Function `extractFile` (zip.go:96). When `zf.Open()` fails and errors are ignored,
`r` is the nil interface and control reaches `defer r.Close()`: evaluating the
method value of a nil interface is a run-time panic, so the function panics
there, before `basics.WriteDisk`. -/
def extractFile (env : Env) (es : ExtractSetting) (h : History) (p _destination : GoString)
    (zf : File) : History × Outcome :=
  match zf.Open env with
  | .error err =>
    if !es.IgnoreError then (h ++ [.Open zf.Name (some err)], .error err)
    else (h ++ [.Open zf.Name (some err)], .panic)
  | .ok r =>
    let h1 := h ++ [.Open zf.Name none]
    let res := env.WriteDisk h1 r p zf.Mode
    (h1 ++ [.WriteDisk r p zf.Mode res], .ofError res)

/-- What a call to `extractSymlink` or `extractFile` means for the loop of
`Extract` (zip.go:132-137, 139-143): `none` goes on with the next entry, `some`
leaves `Extract`. A panic is not recovered. -/
def afterExtract (es : ExtractSetting) (r : History × Outcome) : History × Option Outcome :=
  match r with
  | (h, .nil) => (h, none)
  | (h, .error err) => if !es.IgnoreError then (h, some (.error err)) else (h, none)
  | (h, .panic) => (h, some .panic)

/-- The call of the `OnEntry` callback, when one is configured
(zip.go:126-127): the history after it, and its answer. The callback is given
the whole entry for the `fi` it is passed in Go. -/
def callOnEntry (es : ExtractSetting) (h : History) (file : File) : History × Option Error :=
  match es.OnEntry with
  | none => (h, none)
  | some cb => (h ++ [.OnEntry file.Name file.Mode (cb h file.Name file)], cb h file.Name file)

/-- The body of the loop of `Extract` (zip.go:110-143) for one entry: `none`
goes on with the next entry (also by `continue`), `some` is a `return` or a
panic. -/
def extractEntry (env : Env) (es : ExtractSetting) (destination : GoString) (h : History)
    (file : File) : History × Option Outcome :=
  let out := Join destination file.Name
  if !env.IsRelativePath destination out then
    if es.IgnoreError then (h, none)
    else (h, some (.error .ErrRelativePathEscape))
  else if IsDir file.Mode then
    let res := env.MkdirAll h out file.Mode
    let h1 := h ++ [.MkdirAll out file.Mode res]
    match res with
    | some err => if !es.IgnoreError then (h1, some (.error err)) else (h1, none)
    | none => (h1, none)
  else
    match callOnEntry es h file with
    | (h1, some err) => (h1, some (.error err))
    | (h1, none) =>
      if file.Mode &&& ModeSymlink != 0 then
        afterExtract es (extractSymlink env h1 out destination file)
      else
        afterExtract es (extractFile env es h1 out destination file)

/-- The loop of `Extract` over the entries still to do, from history `h`. -/
def extractLoop (env : Env) (es : ExtractSetting) (destination : GoString) :
    List File → History → History × Outcome
  | [], h => (h, .nil)
  | file :: rest, h =>
    match extractEntry env es destination h file with
    | (h1, none) => extractLoop env es destination rest h1
    | (h1, some o) => (h1, o)

/-- Function `Extract` (zip.go:108) over the entry table `files` of the archive reader:
the calls made, and the result. -/
def Extract (env : Env) (es : ExtractSetting) (files : List File) (destination : GoString) :
    History × Outcome :=
  extractLoop env es destination files []

/-! ## Reading a history -/

/-- The path a materialising call (`os.MkdirAll`, `basics.SymbolicLink`,
`basics.WriteDisk`) is handed; `none` for the other calls. -/
def Event.target : Event → Option GoString
  | .MkdirAll path _ _ => some path
  | .SymbolicLink _ newname _ => some newname
  | .WriteDisk _ path _ _ => some path
  | _ => none

/-- The answer a call got. -/
def Event.result : Event → Option Error
  | .Open _ res => res
  | .MkdirAll _ _ res => res
  | .OnEntry _ _ res => res
  | .SymbolicLink _ _ res => res
  | .WriteDisk _ _ _ res => res

/-- The path of a materialising call that succeeded. -/
def Event.done (ev : Event) : Option GoString :=
  if ev.result = none then ev.target else none

/-- The name shown to the observer by a call of `OnEntry`. -/
def Event.observedName : Event → Option GoString
  | .OnEntry name _ _ => some name
  | _ => none

/-- The paths handed to materialising calls, in order. -/
def attempted (h : History) : List GoString :=
  h.filterMap Event.target

/-- The paths of the materialising calls that succeeded, in order. -/
def materialised (h : History) : List GoString :=
  h.filterMap Event.done

/-- The names passed to `OnEntry`, in order. -/
def observed (h : History) : List GoString :=
  h.filterMap Event.observedName

/-- A call that works on the payload of the entry `name` extracted to `out`:
opening its stream, linking at `out`, writing at `out`. -/
def Event.isPayloadOp (name out : GoString) : Event → Bool
  | .Open n _ => n == name
  | .SymbolicLink _ newname _ => newname == out
  | .WriteDisk _ path _ _ => path == out
  | _ => false

/-- What one entry adds to the history of a run with an observer that goes on
past it: nothing when its path fails the containment check, one `os.MkdirAll`
for a directory, and otherwise the `OnEntry` call followed only by calls on
its own payload. -/
def EntryBlock (env : Env) (destination : GoString) (f : File) (b : History) : Prop :=
  if env.IsRelativePath destination (Join destination f.Name) = false then b = []
  else if IsDir f.Mode = true then
    ∃ res, b = [.MkdirAll (Join destination f.Name) f.Mode res]
  else
    ∃ rest, b = .OnEntry f.Name f.Mode none :: rest ∧
      ∀ ev ∈ rest, ev.isPayloadOp f.Name (Join destination f.Name) = true

/-- The link target the spec asks for, from the link path `p` and the payload
text `lnk` as read: the trimmed text cleaned when it is absolute, else joined
to the directory of the link. -/
def linkTarget (u : Unicode) (p lnk : GoString) : GoString :=
  if IsAbs (TrimSpace u lnk) then Clean (TrimSpace u lnk)
  else Join (Dir p) (TrimSpace u lnk)

/-- A per-entry step fails with `e` at history `h`: creating the directory,
or, past the observer, opening the payload, reading the link text, creating
the link, or writing the file. -/
inductive StepFails (env : Env) (es : ExtractSetting) (destination : GoString) (h : History)
    (f : File) : Error → Prop
  | mkdir (e : Error) :
      IsDir f.Mode = true →
      env.MkdirAll h (Join destination f.Name) f.Mode = some e →
      StepFails env es destination h f e
  | openPayload (e : Error) (h1 : History) :
      IsDir f.Mode = false → callOnEntry es h f = (h1, none) →
      f.Open env = .error e →
      StepFails env es destination h f e
  | readLink (e : Error) (h1 : History) (r : Stream) (lnk : GoString) :
      IsDir f.Mode = false → callOnEntry es h f = (h1, none) →
      (f.Mode &&& ModeSymlink != 0) = true →
      f.Open env = .ok r → ReadAllLimit r linkCap = (lnk, some e) →
      StepFails env es destination h f e
  | link (e : Error) (h1 : History) (r : Stream) (lnk : GoString) :
      IsDir f.Mode = false → callOnEntry es h f = (h1, none) →
      (f.Mode &&& ModeSymlink != 0) = true →
      f.Open env = .ok r → ReadAllLimit r linkCap = (lnk, none) →
      env.SymbolicLink (h1 ++ [.Open f.Name none])
        (linkTarget env.unicode (Join destination f.Name) lnk) (Join destination f.Name) = some e →
      StepFails env es destination h f e
  | write (e : Error) (h1 : History) (r : Stream) :
      IsDir f.Mode = false → callOnEntry es h f = (h1, none) →
      (f.Mode &&& ModeSymlink != 0) = false →
      f.Open env = .ok r →
      env.WriteDisk (h1 ++ [.Open f.Name none]) r (Join destination f.Name) f.Mode = some e →
      StepFails env es destination h f e

/-- Whether the step of an entry gets as far as its materialising call: a
directory always does (`os.MkdirAll`), a link when its payload opens and its
text is read (`basics.SymbolicLink`), a regular file when its payload opens
(`basics.WriteDisk`). -/
def reachesCall (env : Env) (f : File) : Bool :=
  IsDir f.Mode ||
  match f.Open env with
  | .error _ => false
  | .ok r => if f.Mode &&& ModeSymlink != 0 then (ReadAllLimit r linkCap).2.isNone else true

/-! ## Path containment as the spec words it -/

/-- The elements of a path that name something: neither empty nor `.`. -/
def elements (path : GoString) : List GoString :=
  (splitPath path).filter (fun e => e != [] && e != [Dot])

/-- What is left of `xs` after the prefix `pre`, when `pre` is a prefix. -/
def stripPrefix (pre xs : List GoString) : Option (List GoString) :=
  match pre, xs with
  | [], xs => some xs
  | _ :: _, [] => none
  | a :: pre, x :: xs => if a = x then stripPrefix pre xs else none

/-- Modelled from the spec: `basics.IsRelativePath`, which is not in zip.go.
Spec 4.2: the joined path, after lexical cleaning, must have the root as a
full path-segment prefix (so `/dest-evil` is not inside `/dest`), guarding
against absolute names that leave the root and against `..` traversal. -/
def specIsRelativePath (root path : GoString) : Bool :=
  IsAbs (Clean root) == IsAbs (Clean path) &&
  match stripPrefix (elements (Clean root)) (elements (Clean path)) with
  | none => false
  | some rest => !rest.contains [Dot, Dot]

/-- The path lies lexically inside the root: both cleaned, they are rooted
alike and the path's elements are the root's elements followed by elements
none of which is `..`. -/
def LexicallyInside (root path : GoString) : Prop :=
  IsAbs (Clean root) = IsAbs (Clean path) ∧
  ∃ rest, elements (Clean path) = elements (Clean root) ++ rest ∧ [Dot, Dot] ∉ rest

/-! ## Sample inputs -/

/-- A world in which every call succeeds, the registry holds the methods the
spec lists, and containment is the check of the spec. -/
def sampleEnv : Env where
  unicode := ⟨id, id⟩
  decompressor := fun m => [Store, Deflate, BZIP2, LZMA, LZMA2, ZSTD, XZ, PPMd].contains m
  IsRelativePath := specIsRelativePath
  MkdirAll := fun _ _ _ => none
  SymbolicLink := fun _ _ _ => none
  WriteDisk := fun _ _ _ _ => none

/-- Abort on the first error, no observer. -/
def strict : ExtractSetting := ⟨false, none⟩

/-- Go on past errors, no observer. -/
def tolerant : ExtractSetting := ⟨true, none⟩

/-- An observer that rejects the entry `docs/big.bin` and accepts the rest. -/
def sizeGate : History → GoString → File → Option Error :=
  fun _ name _ => if name = str "docs/big.bin" then some (.other 7) else none

/-- The destination root of the samples. -/
def root : GoString := str "/tmp/out"

/-- The directory entry `docs/`. -/
def dirEntry : File := ⟨str "docs/", ModeDir + 0o755, Store, .ok ⟨[], none, false⟩⟩

/-- The regular file `docs/readme.txt`. -/
def fileEntry : File := ⟨str "docs/readme.txt", 0o644, Deflate, .ok ⟨str "hello", none, false⟩⟩

/-- The regular file `docs/big.bin`. -/
def bigEntry : File := ⟨str "docs/big.bin", 0o644, Store, .ok ⟨str "0123456789", none, false⟩⟩

/-- The regular file `docs/bad.bin` with the unsupported method code 255. -/
def badEntry : File := ⟨str "docs/bad.bin", 0o644, 255, .ok ⟨str "????", none, false⟩⟩

/-- The symbolic link `a/link` to `../b/target`. -/
def linkEntry : File := ⟨str "a/link", ModeSymlink + 0o777, Store, .ok ⟨str "../b/target", none, false⟩⟩

/-- The traversal attempt `../../../etc/cron.d/evil`. -/
def evilEntry : File :=
  ⟨str "../../../etc/cron.d/evil", 0o644, Store, .ok ⟨str "* * * * * root sh", none, false⟩⟩

/-- A text of exactly `linkCap` bytes: a tab, `../b/target`, then spaces. -/
def paddedText : GoString :=
  [9] ++ str "../b/target" ++ List.replicate (linkCap - 12) 32

/-- A payload longer than the cap: `paddedText` followed by `/../../etc`. -/
def paddedPayload : GoString :=
  paddedText ++ str "/../../etc"

/-- The link `a/long` with the payload `paddedPayload`. -/
def paddedLink : File :=
  ⟨str "a/long", ModeSymlink + 0o777, Store, .ok ⟨paddedPayload, none, false⟩⟩

/-- A world like `sampleEnv` in which three calls fail: making the directory
`/tmp/out/locked`, linking at `/tmp/out/a/taken`, writing
`/tmp/out/docs/big.bin`. -/
def faultyEnv : Env where
  unicode := ⟨id, id⟩
  decompressor := fun m => [Store, Deflate, BZIP2, LZMA, LZMA2, ZSTD, XZ, PPMd].contains m
  IsRelativePath := specIsRelativePath
  MkdirAll := fun _ path _ => if path = str "/tmp/out/locked" then some (.other 13) else none
  SymbolicLink := fun _ _ newname =>
    if newname = str "/tmp/out/a/taken" then some (.other 17) else none
  WriteDisk := fun _ _ path _ =>
    if path = str "/tmp/out/docs/big.bin" then some (.other 28) else none

/-- The directory entry `locked/`. -/
def lockedDir : File := ⟨str "locked/", ModeDir + 0o755, Store, .ok ⟨[], none, false⟩⟩

/-- The link `a/taken` to `../b/target`. -/
def takenLink : File :=
  ⟨str "a/taken", ModeSymlink + 0o777, Store, .ok ⟨str "../b/target", none, false⟩⟩

/-- The link `a/broken`, whose payload breaks off with an error after `../b/tar`. -/
def brokenLink : File :=
  ⟨str "a/broken", ModeSymlink + 0o777, Deflate, .ok ⟨str "../b/tar", some (.other 5), false⟩⟩

/-- The link `a/crc`, a deflated payload of exactly `linkCap` bytes whose
checksum is wrong, which its reader reports with the last bytes. -/
def crcLink : File :=
  ⟨str "a/crc", ModeSymlink + 0o777, Deflate,
    .ok ⟨List.replicate linkCap 97, some .ErrChecksum, true⟩⟩

/-! ## The ways through one entry -/

/-- What the loop of `Extract` does with the answer `res` of a call whose
error may be ignored: go on, or return the error in strict mode. -/
def ignoring (es : ExtractSetting) (res : Option Error) : Option Outcome :=
  match res with
  | none => none
  | some err => if es.IgnoreError then none else some (.error err)

/-- The calls `ob` of the observer step for an entry at history `h`, and its
answer: no call without a callback, else the one call of the callback. -/
def ObserverCalls (es : ExtractSetting) (h : History) (f : File) (ob : History)
    (res : Option Error) : Prop :=
  (es.OnEntry = none ∧ ob = [] ∧ res = none) ∨
  (∃ cb, es.OnEntry = some cb ∧ ob = [.OnEntry f.Name f.Mode (cb h f.Name f)] ∧
    res = cb h f.Name f)

/-- The ways through the loop body for one entry at history `h`: the calls it
adds, and whether the loop goes on (`none`) or `Extract` ends (`some`). -/
inductive EntryRun (env : Env) (es : ExtractSetting) (d : GoString) (h : History) (f : File) :
    History → Option Outcome → Prop
  | escape :
      env.IsRelativePath d (Join d f.Name) = false →
      EntryRun env es d h f []
        (if es.IgnoreError then none else some (.error .ErrRelativePathEscape))
  | dir :
      env.IsRelativePath d (Join d f.Name) = true → IsDir f.Mode = true →
      EntryRun env es d h f
        [.MkdirAll (Join d f.Name) f.Mode (env.MkdirAll h (Join d f.Name) f.Mode)]
        (ignoring es (env.MkdirAll h (Join d f.Name) f.Mode))
  | rejected (ob : History) (e : Error) :
      env.IsRelativePath d (Join d f.Name) = true → IsDir f.Mode = false →
      ObserverCalls es h f ob (some e) →
      EntryRun env es d h f ob (some (.error e))
  | openFailed (ob : History) (e : Error) :
      env.IsRelativePath d (Join d f.Name) = true → IsDir f.Mode = false →
      ObserverCalls es h f ob none →
      f.Open env = .error e →
      EntryRun env es d h f (ob ++ [.Open f.Name (some e)])
        (if es.IgnoreError then
          (if f.Mode &&& ModeSymlink != 0 then none else some .panic)
         else some (.error e))
  | readFailed (ob : History) (r : Stream) (lnk : GoString) (e : Error) :
      env.IsRelativePath d (Join d f.Name) = true → IsDir f.Mode = false →
      ObserverCalls es h f ob none →
      (f.Mode &&& ModeSymlink != 0) = true →
      f.Open env = .ok r → ReadAllLimit r linkCap = (lnk, some e) →
      EntryRun env es d h f (ob ++ [.Open f.Name none]) (ignoring es (some e))
  | linked (ob : History) (r : Stream) (lnk : GoString) :
      env.IsRelativePath d (Join d f.Name) = true → IsDir f.Mode = false →
      ObserverCalls es h f ob none →
      (f.Mode &&& ModeSymlink != 0) = true →
      f.Open env = .ok r → ReadAllLimit r linkCap = (lnk, none) →
      EntryRun env es d h f
        (ob ++ [.Open f.Name none,
          .SymbolicLink (linkTarget env.unicode (Join d f.Name) lnk) (Join d f.Name)
            (env.SymbolicLink (h ++ ob ++ [.Open f.Name none])
              (linkTarget env.unicode (Join d f.Name) lnk) (Join d f.Name))])
        (ignoring es
          (env.SymbolicLink (h ++ ob ++ [.Open f.Name none])
            (linkTarget env.unicode (Join d f.Name) lnk) (Join d f.Name)))
  | written (ob : History) (r : Stream) :
      env.IsRelativePath d (Join d f.Name) = true → IsDir f.Mode = false →
      ObserverCalls es h f ob none →
      (f.Mode &&& ModeSymlink != 0) = false →
      f.Open env = .ok r →
      EntryRun env es d h f
        (ob ++ [.Open f.Name none,
          .WriteDisk r (Join d f.Name) f.Mode
            (env.WriteDisk (h ++ ob ++ [.Open f.Name none]) r (Join d f.Name) f.Mode)])
        (ignoring es (env.WriteDisk (h ++ ob ++ [.Open f.Name none]) r (Join d f.Name) f.Mode))

/-! # Theorems -/

/-! ## Lemmas on `path/filepath` -/

theorem cleanStep_nil (r : Bool) (st : List GoString) : cleanStep r st [] = st := by
  simp [cleanStep]

theorem cleanStep_normal (r : Bool) (st : List GoString) (e : GoString) (he : Normal e) :
    cleanStep r st e = e :: st := by
  obtain ⟨h1, h2, h3, -⟩ := he
  simp [cleanStep, h1, h2, h3]

theorem cleanStep_pop (r : Bool) (st : List GoString) (top : GoString) (ht : Normal top) :
    cleanStep r (top :: st) [Dot, Dot] = st := by
  obtain ⟨-, -, h3, -⟩ := ht
  simp [cleanStep, canBacktrack, h3]

theorem cleanStep_keep (k : Nat) :
    cleanStep false (List.replicate k [Dot, Dot]) [Dot, Dot] =
      List.replicate (k + 1) [Dot, Dot] := by
  cases k with
  | zero => simp [cleanStep, canBacktrack, Dot]
  | succ k => simp [cleanStep, canBacktrack, List.replicate_succ, Dot]

theorem cleanStep_root : cleanStep true [] [Dot, Dot] = [] := by
  simp [cleanStep, canBacktrack, Dot]

theorem CleanStack.nil (r : Bool) : CleanStack r [] :=
  ⟨[], 0, by simp, fun _ => rfl, by simp⟩

theorem CleanStack.push {r : Bool} {st : List GoString} (hst : CleanStack r st)
    {e : GoString} (he : Normal e) : CleanStack r (e :: st) := by
  obtain ⟨normals, k, rfl, hk, hn⟩ := hst
  refine ⟨e :: normals, k, by simp, hk, ?_⟩
  intro x hx
  simp only [List.mem_cons] at hx
  rcases hx with rfl | hx
  · exact he
  · exact hn x hx

theorem CleanStack.step {r : Bool} {st : List GoString} (hst : CleanStack r st)
    (e : GoString) (he : SepFree e) : CleanStack r (cleanStep r st e) := by
  by_cases h1 : e = []
  · subst h1; rw [cleanStep_nil]; exact hst
  by_cases h2 : e = [Dot]
  · subst h2
    have : cleanStep r st [Dot] = st := by simp [cleanStep, Dot]
    rw [this]; exact hst
  by_cases h3 : e = [Dot, Dot]
  · subst h3
    obtain ⟨normals, k, rfl, hk, hn⟩ := hst
    cases normals with
    | nil =>
      cases r with
      | true =>
        have hk0 := hk rfl
        subst hk0
        simp only [List.replicate_zero, List.append_nil, cleanStep_root]
        exact CleanStack.nil true
      | false =>
        simp only [List.nil_append, cleanStep_keep]
        exact ⟨[], k + 1, by simp, by simp, by simp⟩
    | cons n ns =>
      simp only [List.cons_append]
      rw [cleanStep_pop r _ n (hn n (by simp))]
      exact ⟨ns, k, rfl, hk, fun x hx => hn x (by simp [hx])⟩
  · rw [cleanStep_normal r st e ⟨h1, h2, h3, he⟩]
    exact hst.push ⟨h1, h2, h3, he⟩

theorem CleanStack.foldl {r : Bool} (es : List GoString) (hes : ∀ e ∈ es, SepFree e) :
    ∀ {st : List GoString}, CleanStack r st → CleanStack r (es.foldl (cleanStep r) st) := by
  induction es with
  | nil => intro st hst; exact hst
  | cons e es ih =>
    intro st hst
    exact ih (fun x hx => hes x (by simp [hx])) (hst.step e (hes e (by simp)))

theorem dropWhile_append_all (p : Nat → Bool) (l1 l2 : List Nat) (h : ∀ x ∈ l1, p x = true) :
    (l1 ++ l2).dropWhile p = l2.dropWhile p := by
  induction l1 with
  | nil => rfl
  | cons a l1 ih =>
    rw [List.cons_append, List.dropWhile_cons_of_pos (h a (by simp))]
    exact ih (fun x hx => h x (by simp [hx]))

theorem extractSymlink_cases (env : Env) (h : History) (p d : GoString) (zf : File) :
    (∃ e, zf.Open env = .error e ∧
      extractSymlink env h p d zf = (h ++ [.Open zf.Name (some e)], .error e)) ∨
    (∃ r lnk e, zf.Open env = .ok r ∧ ReadAllLimit r linkCap = (lnk, some e) ∧
      extractSymlink env h p d zf = (h ++ [.Open zf.Name none], .error e)) ∨
    (∃ r lnk, zf.Open env = .ok r ∧ ReadAllLimit r linkCap = (lnk, none) ∧
      extractSymlink env h p d zf =
        (h ++ [.Open zf.Name none,
               .SymbolicLink (linkTarget env.unicode p lnk) p
                 (env.SymbolicLink (h ++ [.Open zf.Name none]) (linkTarget env.unicode p lnk) p)],
         .ofError
           (env.SymbolicLink (h ++ [.Open zf.Name none]) (linkTarget env.unicode p lnk) p))) := by
  unfold extractSymlink linkTarget
  cases hO : zf.Open env with
  | error e => simp
  | ok r =>
    rcases hR : ReadAllLimit r linkCap with ⟨lnk, _ | e⟩
    · right; right
      refine ⟨r, lnk, rfl, hR, ?_⟩
      by_cases hA : IsAbs (TrimSpace env.unicode lnk) = true <;> simp [hR, hA]
    · right; left
      exact ⟨r, lnk, e, rfl, hR, by simp [hR]⟩

theorem extractFile_cases (env : Env) (es : ExtractSetting) (h : History) (p d : GoString)
    (zf : File) :
    (∃ e, zf.Open env = .error e ∧ es.IgnoreError = false ∧
      extractFile env es h p d zf = (h ++ [.Open zf.Name (some e)], .error e)) ∨
    (∃ e, zf.Open env = .error e ∧ es.IgnoreError = true ∧
      extractFile env es h p d zf = (h ++ [.Open zf.Name (some e)], .panic)) ∨
    (∃ r, zf.Open env = .ok r ∧
      extractFile env es h p d zf =
        (h ++ [.Open zf.Name none,
               .WriteDisk r p zf.Mode (env.WriteDisk (h ++ [.Open zf.Name none]) r p zf.Mode)],
         .ofError (env.WriteDisk (h ++ [.Open zf.Name none]) r p zf.Mode))) := by
  unfold extractFile
  cases hO : zf.Open env with
  | error e => cases hI : es.IgnoreError <;> simp
  | ok r => simp

theorem callOnEntry_cases (es : ExtractSetting) (h : History) (f : File) :
    (es.OnEntry = none ∧ callOnEntry es h f = (h, none)) ∨
    (∃ cb, es.OnEntry = some cb ∧
      callOnEntry es h f = (h ++ [.OnEntry f.Name f.Mode (cb h f.Name f)], cb h f.Name f)) := by
  unfold callOnEntry
  cases hcb : es.OnEntry with
  | none => simp
  | some cb => simp

theorem extractEntry_escape (env : Env) (es : ExtractSetting) (d : GoString) (h : History)
    (f : File) (hc : env.IsRelativePath d (Join d f.Name) = false) :
    extractEntry env es d h f =
      (h, if es.IgnoreError then none else some (.error .ErrRelativePathEscape)) := by
  unfold extractEntry
  cases hI : es.IgnoreError <;> simp [hc]

theorem extractEntry_dir (env : Env) (es : ExtractSetting) (d : GoString) (h : History)
    (f : File) (hc : env.IsRelativePath d (Join d f.Name) = true) (hd : IsDir f.Mode = true) :
    extractEntry env es d h f =
      (h ++ [.MkdirAll (Join d f.Name) f.Mode (env.MkdirAll h (Join d f.Name) f.Mode)],
       match env.MkdirAll h (Join d f.Name) f.Mode with
       | some err => if es.IgnoreError then none else some (.error err)
       | none => none) := by
  unfold extractEntry
  cases hM : env.MkdirAll h (Join d f.Name) f.Mode <;> cases hI : es.IgnoreError <;>
    simp [hc, hd, hM]

theorem extractEntry_payload (env : Env) (es : ExtractSetting) (d : GoString) (h : History)
    (f : File) (hc : env.IsRelativePath d (Join d f.Name) = true) (hd : IsDir f.Mode = false) :
    extractEntry env es d h f =
      match callOnEntry es h f with
      | (h1, some err) => (h1, some (.error err))
      | (h1, none) =>
        if f.Mode &&& ModeSymlink != 0 then
          afterExtract es (extractSymlink env h1 (Join d f.Name) d f)
        else
          afterExtract es (extractFile env es h1 (Join d f.Name) d f) := by
  unfold extractEntry
  simp [hc, hd]


theorem callOnEntry_observer (es : ExtractSetting) (h : History) (f : File) :
    ∃ ob res, callOnEntry es h f = (h ++ ob, res) ∧ ObserverCalls es h f ob res := by
  rcases callOnEntry_cases es h f with ⟨h0, hcall⟩ | ⟨cb, hcb, hcall⟩
  · exact ⟨[], none, by simpa using hcall, Or.inl ⟨h0, rfl, rfl⟩⟩
  · exact ⟨_, _, hcall, Or.inr ⟨cb, hcb, rfl, rfl⟩⟩

theorem afterExtract_ofError (es : ExtractSetting) (h : History) (res : Option Error) :
    afterExtract es (h, .ofError res) = (h, ignoring es res) := by
  cases res <;> cases hI : es.IgnoreError <;> simp [afterExtract, Outcome.ofError, ignoring, hI]

theorem afterExtract_error (es : ExtractSetting) (h : History) (e : Error) :
    afterExtract es (h, .error e) = (h, ignoring es (some e)) :=
  afterExtract_ofError es h (some e)

/-- The loop body follows one of the ways of `EntryRun`. -/
theorem extractEntry_run (env : Env) (es : ExtractSetting) (d : GoString) (h : History)
    (f : File) :
    ∃ b o, extractEntry env es d h f = (h ++ b, o) ∧ EntryRun env es d h f b o := by
  cases hc : env.IsRelativePath d (Join d f.Name) with
  | false =>
    exact ⟨[], _, by rw [extractEntry_escape env es d h f hc]; simp, .escape hc⟩
  | true =>
    cases hd : IsDir f.Mode with
    | true =>
      refine ⟨_, _, ?_, .dir hc hd⟩
      rw [extractEntry_dir env es d h f hc hd]
      cases hM : env.MkdirAll h (Join d f.Name) f.Mode <;> simp [ignoring]
    | false =>
      rw [extractEntry_payload env es d h f hc hd]
      obtain ⟨ob, res, hcall, hob⟩ := callOnEntry_observer es h f
      rw [hcall]
      cases res with
      | some e => exact ⟨ob, _, rfl, .rejected ob e hc hd hob⟩
      | none =>
        simp only []
        cases hs : (f.Mode &&& ModeSymlink != 0) with
        | true =>
          simp only [if_true]
          rcases extractSymlink_cases env (h ++ ob) (Join d f.Name) d f with
            ⟨e, hO, hx⟩ | ⟨r, lnk, e, hO, hR, hx⟩ | ⟨r, lnk, hO, hR, hx⟩
          · refine ⟨_, _, ?_, .openFailed ob e hc hd hob hO⟩
            rw [hx, afterExtract_error]
            cases hI : es.IgnoreError <;> simp [ignoring, hI, hs]
          · refine ⟨_, _, ?_, .readFailed ob r lnk e hc hd hob hs hO hR⟩
            rw [hx, afterExtract_error]; simp
          · refine ⟨_, _, ?_, .linked ob r lnk hc hd hob hs hO hR⟩
            rw [hx, afterExtract_ofError]; simp
        | false =>
          simp only [Bool.false_eq_true, if_false]
          rcases extractFile_cases env es (h ++ ob) (Join d f.Name) d f with
            ⟨e, hO, hI, hx⟩ | ⟨e, hO, hI, hx⟩ | ⟨r, hO, hx⟩
          · refine ⟨_, _, ?_, .openFailed ob e hc hd hob hO⟩
            rw [hx, afterExtract_error]; simp [ignoring, hI]
          · refine ⟨_, _, ?_, .openFailed ob e hc hd hob hO⟩
            rw [hx]; simp [afterExtract, hI, hs]
          · refine ⟨_, _, ?_, .written ob r hc hd hob hs hO⟩
            rw [hx, afterExtract_ofError]; simp

/-! ## The loop -/

theorem ignoring_ne_nil (es : ExtractSetting) (res : Option Error) :
    ignoring es res ≠ some .nil := by
  cases res <;> cases hI : es.IgnoreError <;> simp [ignoring, hI]

theorem EntryRun.ne_nil {env : Env} {es : ExtractSetting} {d : GoString} {h : History}
    {f : File} {b : History} {o : Option Outcome} (hR : EntryRun env es d h f b o) :
    o ≠ some .nil := by
  cases hR with
  | escape => cases hI : es.IgnoreError <;> simp
  | dir => exact ignoring_ne_nil _ _
  | rejected => simp
  | openFailed => cases hI : es.IgnoreError <;> cases hs : (f.Mode &&& ModeSymlink != 0) <;> simp
  | readFailed => exact ignoring_ne_nil _ _
  | linked => exact ignoring_ne_nil _ _
  | written => exact ignoring_ne_nil _ _

theorem extractEntry_ne_nil (env : Env) (es : ExtractSetting) (d : GoString) (h : History)
    (f : File) : (extractEntry env es d h f).2 ≠ some .nil := by
  obtain ⟨b, o, hE, hR⟩ := extractEntry_run env es d h f
  rw [hE]
  exact hR.ne_nil

theorem extractLoop_append (env : Env) (es : ExtractSetting) (d : GoString)
    (pre post : List File) (h : History) :
    extractLoop env es d (pre ++ post) h =
      match extractLoop env es d pre h with
      | (h1, .nil) => extractLoop env es d post h1
      | r => r := by
  induction pre generalizing h with
  | nil => simp [extractLoop]
  | cons f fs ih =>
    simp only [List.cons_append, extractLoop]
    have hne := extractEntry_ne_nil env es d h f
    rcases hE : extractEntry env es d h f with ⟨h1, _ | o⟩
    · simpa using ih h1
    · rw [hE] at hne
      cases o <;> simp at hne ⊢

/-- A run that returns nil went on past every entry: its history is the start
history followed by one block of calls per entry. -/
theorem extractLoop_nil_blocks (env : Env) (es : ExtractSetting) (d : GoString)
    (files : List File) (h h' : History)
    (hrun : extractLoop env es d files h = (h', .nil)) :
    ∃ blocks : List History, h' = h ++ blocks.flatten ∧
      List.Forall₂ (fun f b => ∃ hf, EntryRun env es d hf f b none) files blocks := by
  induction files generalizing h with
  | nil =>
    simp [extractLoop] at hrun
    exact ⟨[], by simp [hrun], .nil⟩
  | cons f fs ih =>
    obtain ⟨b, o, hE, hR⟩ := extractEntry_run env es d h f
    simp only [extractLoop, hE] at hrun
    cases o with
    | some o =>
      have := hR.ne_nil
      simp at hrun
      simp [hrun.2] at this
    | none =>
      obtain ⟨bs, hh, hF⟩ := ih (h ++ b) hrun
      exact ⟨b :: bs, by simp [hh], .cons ⟨h, hR⟩ hF⟩

/-- Each materialising call of an entry is handed the entry's joined path,
which has passed the containment check. -/
theorem EntryRun.targets {env : Env} {es : ExtractSetting} {d : GoString} {h : History}
    {f : File} {b : History} {o : Option Outcome} (hR : EntryRun env es d h f b o) :
    ∀ ev ∈ b, ∀ p, ev.target = some p →
      p = Join d f.Name ∧ env.IsRelativePath d (Join d f.Name) = true := by
  intro ev hev p hp
  cases hR with
  | escape => simp at hev
  | dir hc hd =>
    simp at hev; subst hev
    simp [Event.target] at hp
    exact ⟨hp.symm, hc⟩
  | rejected ob e hc hd hob =>
    rcases hob with ⟨-, rfl, -⟩ | ⟨cb, -, rfl, -⟩
    · simp at hev
    · simp at hev; subst hev; simp [Event.target] at hp
  | openFailed ob e hc hd hob hO =>
    rcases hob with ⟨-, rfl, -⟩ | ⟨cb, -, rfl, -⟩ <;>
      simp at hev <;> rcases hev with rfl | rfl <;> simp [Event.target] at hp
  | readFailed ob r lnk e hc hd hob hs hO hR =>
    rcases hob with ⟨-, rfl, -⟩ | ⟨cb, -, rfl, -⟩ <;>
      simp at hev <;> rcases hev with rfl | rfl <;> simp [Event.target] at hp
  | linked ob r lnk hc hd hob hs hO hR =>
    rcases hob with ⟨-, rfl, -⟩ | ⟨cb, -, rfl, -⟩ <;>
      simp at hev <;> rcases hev with rfl | rfl | rfl <;> simp [Event.target] at hp <;>
      exact ⟨hp.symm, hc⟩
  | written ob r hc hd hob hs hO =>
    rcases hob with ⟨-, rfl, -⟩ | ⟨cb, -, rfl, -⟩ <;>
      simp at hev <;> rcases hev with rfl | rfl | rfl <;> simp [Event.target] at hp <;>
      exact ⟨hp.symm, hc⟩

/-- Every materialising call of a run is either in the start history or is
handed the joined path of an entry that passed the containment check. -/
theorem extractLoop_targets (env : Env) (es : ExtractSetting) (d : GoString)
    (files : List File) (h : History) :
    ∀ ev ∈ (extractLoop env es d files h).1, ev ∈ h ∨
      ∀ p, ev.target = some p →
        ∃ f ∈ files, p = Join d f.Name ∧ env.IsRelativePath d p = true := by
  induction files generalizing h with
  | nil => intro ev hev; left; simpa [extractLoop] using hev
  | cons f fs ih =>
    intro ev hev
    obtain ⟨b, o, hE, hR⟩ := extractEntry_run env es d h f
    simp only [extractLoop, hE] at hev
    have hb : ev ∈ h ++ b → ev ∈ h ∨
        ∀ p, ev.target = some p →
          ∃ g ∈ f :: fs, p = Join d g.Name ∧ env.IsRelativePath d p = true := by
      intro hm
      rcases List.mem_append.1 hm with hm | hm
      · exact Or.inl hm
      · right
        intro p hp
        obtain ⟨h1, h2⟩ := hR.targets ev hm p hp
        exact ⟨f, by simp, h1, h1 ▸ h2⟩
    cases o with
    | some o => exact hb hev
    | none =>
      rcases ih (h ++ b) ev hev with hm | hm
      · exact hb hm
      · right
        intro p hp
        obtain ⟨g, hg, h1, h2⟩ := hm p hp
        exact ⟨g, by simp [hg], h1, h2⟩

/-! ## Containment as the spec words it -/

theorem stripPrefix_eq_some (pre xs rest : List GoString)
    (hs : stripPrefix pre xs = some rest) : xs = pre ++ rest := by
  induction pre generalizing xs with
  | nil => simpa [stripPrefix, eq_comm] using hs
  | cons a pre ih =>
    cases xs with
    | nil => simp [stripPrefix] at hs
    | cons x xs =>
      simp only [stripPrefix] at hs
      by_cases hax : a = x
      · simp only [hax, if_true] at hs
        simp [hax, ih xs hs]
      · simp [hax] at hs

theorem specIsRelativePath_inside (root path : GoString)
    (hc : specIsRelativePath root path = true) : LexicallyInside root path := by
  unfold specIsRelativePath at hc
  simp only [Bool.and_eq_true, beq_iff_eq] at hc
  obtain ⟨habs, hrest⟩ := hc
  refine ⟨habs, ?_⟩
  cases hs : stripPrefix (elements (Clean root)) (elements (Clean path)) with
  | none => simp [hs] at hrest
  | some rest =>
    simp only [hs] at hrest
    refine ⟨rest, stripPrefix_eq_some _ _ _ hs, ?_⟩
    simpa using hrest

theorem andThen_some (x y : Bool) : andThen (some x) (fun _ => some y) = some (x && y) := by
  cases x <;> rfl

theorem orElse_some (x y : Bool) : orElse (some x) (fun _ => some y) = some (x || y) := by
  cases x <;> rfl

theorem Matched_four (a b c e : Nat) (rest : GoString) :
    Matched (a :: b :: c :: e :: rest) =
      some (a == 0x50 && (b == 0x4B && ((c == 0x3 || (c == 0x5 || c == 0x7)) &&
        (e == 0x4 || (e == 0x6 || e == 0x8))))) := by
  simp [Matched, byteIs, index, andThen_some, orElse_some]

/-! ## The claims -/

/-- C10. `Matched` never indexes out of range and answers true exactly when
the buffer has at least four bytes, starts with `P` `K`, has 3, 5 or 7 as third
byte and 4, 6 or 8 as fourth; so it is false on every buffer of fewer than four
bytes, looks at the first four bytes only, and accepts the three ZIP
signatures. -/
theorem C10_Matched_magic (buf : GoString) :
    Matched buf = some (decide (4 ≤ buf.length ∧ buf[0]? = some 0x50 ∧ buf[1]? = some 0x4B ∧
      (buf[2]? = some 0x03 ∨ buf[2]? = some 0x05 ∨ buf[2]? = some 0x07) ∧
      (buf[3]? = some 0x04 ∨ buf[3]? = some 0x06 ∨ buf[3]? = some 0x08))) ∧
    (∀ a b c : Nat, Matched [] = some false ∧ Matched [a] = some false ∧
      Matched [a, b] = some false ∧ Matched [a, b, c] = some false) ∧
    Matched buf = Matched (buf.take 4) ∧
    Matched [0x50, 0x4B, 0x03, 0x04] = some true ∧
    Matched [0x50, 0x4B, 0x05, 0x06] = some true ∧
    Matched [0x50, 0x4B, 0x07, 0x08] = some true := by
  refine ⟨?_, ?_, ?_, by decide, by decide, by decide⟩
  · match buf with
    | [] => simp [Matched, andThen]
    | [_] => simp [Matched, andThen]
    | [_, _] => simp [Matched, andThen]
    | [_, _, _] => simp [Matched, andThen]
    | a :: b :: c :: e :: rest =>
      rw [Matched_four]
      congr 1
      rw [Bool.eq_iff_iff]
      simp
  · intro a b c
    simp [Matched, andThen]
  · match buf with
    | [] => rfl
    | [_] => rfl
    | [_, _] => rfl
    | [_, _, _] => rfl
    | a :: b :: c :: e :: rest =>
      rw [Matched_four, List.take_succ_cons, List.take_succ_cons, List.take_succ_cons,
        List.take_succ_cons, List.take_zero, Matched_four]

theorem mem_attempted {h : History} {p : GoString} :
    p ∈ attempted h ↔ ∃ ev ∈ h, ev.target = some p := by
  simp [attempted, List.mem_filterMap]

/-- C1. Every path that `Extract` hands to `os.MkdirAll`,
`basics.SymbolicLink` or `basics.WriteDisk` is the joined path of some entry
and has passed `IsRelativePath`; an entry whose joined path fails the check is
never materialised; and when the check is the one the spec describes, every
materialised path lies lexically inside the destination root. -/
theorem C1_materialised_paths_contained (env : Env) (es : ExtractSetting) (files : List File)
    (destination : GoString) :
    (∀ ev ∈ (Extract env es files destination).1, ∀ p, ev.target = some p →
      ∃ f ∈ files, p = Join destination f.Name ∧ env.IsRelativePath destination p = true) ∧
    (∀ f ∈ files, env.IsRelativePath destination (Join destination f.Name) = false →
      Join destination f.Name ∉ attempted (Extract env es files destination).1) ∧
    (env.IsRelativePath = specIsRelativePath →
      ∀ p ∈ attempted (Extract env es files destination).1, LexicallyInside destination p) := by
  have key : ∀ ev ∈ (Extract env es files destination).1, ∀ p, ev.target = some p →
      ∃ f ∈ files, p = Join destination f.Name ∧ env.IsRelativePath destination p = true := by
    intro ev hev p hp
    rcases extractLoop_targets env es destination files [] ev hev with hm | hm
    · simp at hm
    · exact hm p hp
  refine ⟨key, ?_, ?_⟩
  · intro f _ hesc hmem
    obtain ⟨ev, hev, hp⟩ := mem_attempted.1 hmem
    obtain ⟨g, _, _, hc⟩ := key ev hev _ hp
    rw [hesc] at hc
    cases hc
  · intro hspec p hmem
    obtain ⟨ev, hev, hp⟩ := mem_attempted.1 hmem
    obtain ⟨g, _, _, hc⟩ := key ev hev _ hp
    rw [hspec] at hc
    exact specIsRelativePath_inside _ _ hc

/-- The traversal attempt of the spec against `/tmp/out`: the joined path is
`/etc/cron.d/evil` and it fails the check, while the absolute name
`/etc/passwd` is joined into the root; a strict run stops with
`ErrRelativePathEscape` before any call, a tolerant run writes only the other
entry, and that write is at a contained joined path. -/
theorem C1_materialised_paths_contained_witness :
    Join root evilEntry.Name = str "/etc/cron.d/evil" ∧
    specIsRelativePath root (str "/etc/cron.d/evil") = false ∧
    Join root (str "/etc/passwd") = str "/tmp/out/etc/passwd" ∧
    specIsRelativePath root (str "/tmp/out/etc/passwd") = true ∧
    specIsRelativePath (str "/dest") (str "/dest-evil") = false ∧
    Extract sampleEnv strict [evilEntry, fileEntry] root = ([], .error .ErrRelativePathEscape) ∧
    attempted (Extract sampleEnv tolerant [evilEntry, fileEntry] root).1 =
      [str "/tmp/out/docs/readme.txt"] ∧
    Event.WriteDisk ⟨str "hello", none, false⟩ (str "/tmp/out/docs/readme.txt") 0o644 none ∈
      (Extract sampleEnv tolerant [evilEntry, fileEntry] root).1 ∧
    (∃ f ∈ [evilEntry, fileEntry], str "/tmp/out/docs/readme.txt" = Join root f.Name ∧
      sampleEnv.IsRelativePath root (str "/tmp/out/docs/readme.txt") = true) :=
  ⟨by decide, by decide, by decide, by decide, by decide, by decide, by decide, by decide,
    (C1_materialised_paths_contained sampleEnv tolerant [evilEntry, fileEntry] root).1
      (.WriteDisk ⟨str "hello", none, false⟩ (str "/tmp/out/docs/readme.txt") 0o644 none)
      (by decide) (str "/tmp/out/docs/readme.txt") rfl⟩

/-- C2. When an entry's joined path fails the containment check: in strict
mode, if the entries before it were all passed with nil, `Extract` returns
`ErrRelativePathEscape` and its history is the history of those earlier entries
alone; in tolerant mode the entry adds no call at all and the run is the run of
the table without it. -/
theorem C2_path_escape_policy (env : Env) (es : ExtractSetting) (destination : GoString)
    (pre post : List File) (f : File)
    (hesc : env.IsRelativePath destination (Join destination f.Name) = false) :
    (es.IgnoreError = false → ∀ t1, Extract env es pre destination = (t1, .nil) →
      Extract env es (pre ++ f :: post) destination = (t1, .error .ErrRelativePathEscape)) ∧
    (es.IgnoreError = true →
      (∀ h, extractEntry env es destination h f = (h, none)) ∧
      Extract env es (pre ++ f :: post) destination = Extract env es (pre ++ post) destination) := by
  constructor
  · intro hI t1 hpre
    unfold Extract at hpre ⊢
    rw [extractLoop_append, hpre]
    simp [extractLoop, extractEntry_escape env es destination t1 f hesc, hI]
  · intro hI
    have hstep : ∀ h, extractEntry env es destination h f = (h, none) := by
      intro h
      simp [extractEntry_escape env es destination h f hesc, hI]
    refine ⟨hstep, ?_⟩
    unfold Extract
    rw [extractLoop_append, extractLoop_append env es destination pre post]
    rcases extractLoop env es destination pre [] with ⟨h1, o⟩
    cases o <;> simp [extractLoop, hstep]

/-- A table with the traversal attempt between two good entries: the strict
run stops at it with only the first entry done, the tolerant run does both
good entries. -/
theorem C2_path_escape_policy_witness :
    sampleEnv.IsRelativePath root (Join root evilEntry.Name) = false ∧
    Extract sampleEnv strict [dirEntry] root =
      ([.MkdirAll (str "/tmp/out/docs") dirEntry.Mode none], .nil) ∧
    Extract sampleEnv strict ([dirEntry] ++ evilEntry :: [fileEntry]) root =
      ([.MkdirAll (str "/tmp/out/docs") dirEntry.Mode none], .error .ErrRelativePathEscape) ∧
    Extract sampleEnv tolerant ([dirEntry] ++ evilEntry :: [fileEntry]) root =
      Extract sampleEnv tolerant ([dirEntry] ++ [fileEntry]) root :=
  ⟨by decide, by decide,
    (C2_path_escape_policy sampleEnv strict root [dirEntry] [fileEntry] evilEntry
      (by decide)).1 rfl _ (by decide),
    ((C2_path_escape_policy sampleEnv tolerant root [dirEntry] [fileEntry] evilEntry
      (by decide)).2 rfl).2⟩

/-- C3. Whatever `IgnoreError` is: when the run has passed the entries before
a non-directory entry with a contained path and the `OnEntry` callback answers
that entry with an error, `Extract` returns that error, the last call in its
history is that `OnEntry` call (nothing is opened, linked or written for the
entry) and no later entry is looked at. -/
theorem C3_observer_error_is_fatal (env : Env) (es : ExtractSetting) (destination : GoString)
    (pre post : List File) (f : File) (cb : History → GoString → File → Option Error)
    (t1 : History) (e : Error)
    (hcb : es.OnEntry = some cb)
    (hpre : Extract env es pre destination = (t1, .nil))
    (hc : env.IsRelativePath destination (Join destination f.Name) = true)
    (hd : IsDir f.Mode = false)
    (hrej : cb t1 f.Name f = some e) :
    Extract env es (pre ++ f :: post) destination =
      (t1 ++ [.OnEntry f.Name f.Mode (some e)], .error e) := by
  unfold Extract at hpre ⊢
  rw [extractLoop_append, hpre]
  simp [extractLoop, extractEntry_payload env es destination t1 f hc hd, callOnEntry, hcb, hrej]

/-- The size gate rejects `docs/big.bin` in both modes: the run ends with its
error right after the `OnEntry` call, the entry after it untouched. -/
theorem C3_observer_error_is_fatal_witness :
    Extract sampleEnv ⟨true, some sizeGate⟩ ([dirEntry] ++ bigEntry :: [fileEntry]) root =
      ([.MkdirAll (str "/tmp/out/docs") dirEntry.Mode none] ++
        [.OnEntry (str "docs/big.bin") 0o644 (some (.other 7))], .error (.other 7)) ∧
    Extract sampleEnv ⟨false, some sizeGate⟩ ([dirEntry] ++ bigEntry :: [fileEntry]) root =
      ([.MkdirAll (str "/tmp/out/docs") dirEntry.Mode none] ++
        [.OnEntry (str "docs/big.bin") 0o644 (some (.other 7))], .error (.other 7)) :=
  ⟨C3_observer_error_is_fatal sampleEnv ⟨true, some sizeGate⟩ root [dirEntry] [fileEntry]
      bigEntry sizeGate _ (.other 7) rfl (by decide) (by decide) (by decide) (by decide),
   C3_observer_error_is_fatal sampleEnv ⟨false, some sizeGate⟩ root [dirEntry] [fileEntry]
      bigEntry sizeGate _ (.other 7) rfl (by decide) (by decide) (by decide) (by decide)⟩

/-! ## Strict mode -/

theorem extractSymlink_linked (env : Env) (h : History) (p d : GoString) (zf : File)
    (r : Stream) (lnk : GoString) (hO : zf.Open env = .ok r)
    (hR : ReadAllLimit r linkCap = (lnk, none)) :
    extractSymlink env h p d zf =
      (h ++ [.Open zf.Name none] ++
        [.SymbolicLink (linkTarget env.unicode p lnk) p
          (env.SymbolicLink (h ++ [.Open zf.Name none]) (linkTarget env.unicode p lnk) p)],
       .ofError (env.SymbolicLink (h ++ [.Open zf.Name none]) (linkTarget env.unicode p lnk) p)) := by
  unfold extractSymlink linkTarget
  by_cases hA : IsAbs (TrimSpace env.unicode lnk) = true <;> simp [hO, hR, hA]

theorem extractSymlink_readFailed (env : Env) (h : History) (p d : GoString) (zf : File)
    (r : Stream) (lnk : GoString) (e : Error) (hO : zf.Open env = .ok r)
    (hR : ReadAllLimit r linkCap = (lnk, some e)) :
    extractSymlink env h p d zf = (h ++ [.Open zf.Name none], .error e) := by
  unfold extractSymlink
  simp [hO, hR]

theorem ObserverCalls.quiet {es : ExtractSetting} {h : History} {f : File} {ob : History}
    {res : Option Error} (hob : ObserverCalls es h f ob res) :
    attempted ob = [] ∧ materialised ob = [] := by
  rcases hob with ⟨-, rfl, -⟩ | ⟨cb, -, rfl, -⟩ <;>
    simp [attempted, materialised, Event.target, Event.done]

theorem attempted_append (a b : History) : attempted (a ++ b) = attempted a ++ attempted b := by
  simp [attempted]

theorem materialised_append (a b : History) :
    materialised (a ++ b) = materialised a ++ materialised b := by
  simp [materialised]

/-- In strict mode an entry that the loop goes on past was materialised by one
successful call at its joined path. -/
theorem EntryRun.strict_done {env : Env} {es : ExtractSetting} {d : GoString} {h : History}
    {f : File} {b : History} (hR : EntryRun env es d h f b none)
    (hI : es.IgnoreError = false) :
    materialised b = [Join d f.Name] ∧ attempted b = [Join d f.Name] := by
  generalize ho : (none : Option Outcome) = o at hR
  cases hR with
  | escape => simp [hI] at ho
  | dir hc hd =>
    cases hM : env.MkdirAll h (Join d f.Name) f.Mode with
    | some e => simp [ignoring, hM, hI] at ho
    | none => simp [materialised, attempted, Event.done, Event.result, Event.target]
  | rejected => simp at ho
  | openFailed => simp [hI] at ho
  | readFailed => simp [ignoring, hI] at ho
  | linked ob r lnk hc hd hob hs hO hRd =>
    cases hM : env.SymbolicLink (h ++ ob ++ [.Open f.Name none])
        (linkTarget env.unicode (Join d f.Name) lnk) (Join d f.Name) with
    | some e => rw [List.append_assoc] at hM; simp [ignoring, hM, hI] at ho
    | none =>
      rw [materialised_append, attempted_append, hob.quiet.1, hob.quiet.2]
      simp [materialised, attempted, Event.done, Event.result, Event.target]
  | written ob r hc hd hob hs hO =>
    cases hM : env.WriteDisk (h ++ ob ++ [.Open f.Name none]) r (Join d f.Name) f.Mode with
    | some e => rw [List.append_assoc] at hM; simp [ignoring, hM, hI] at ho
    | none =>
      rw [materialised_append, attempted_append, hob.quiet.1, hob.quiet.2]
      simp [materialised, attempted, Event.done, Event.result, Event.target]

theorem strict_blocks_done {env : Env} {es : ExtractSetting} {d : GoString}
    (hI : es.IgnoreError = false) {files : List File} {blocks : List History}
    (hF : List.Forall₂ (fun f b => ∃ hf, EntryRun env es d hf f b none) files blocks) :
    materialised blocks.flatten = files.map (fun g => Join d g.Name) ∧
    attempted blocks.flatten = files.map (fun g => Join d g.Name) := by
  induction hF with
  | nil => simp [materialised, attempted]
  | cons hfb _ ih =>
    obtain ⟨hf, hR⟩ := hfb
    obtain ⟨h1, h2⟩ := hR.strict_done hI
    simp [List.flatten, materialised_append, attempted_append, h1, h2, ih.1, ih.2]

/-- In strict mode a failing step ends the loop body with the error of the
failure. No call of the entry succeeded in materialising; the one
materialising call of the entry was made, and failed, exactly when the step
got as far as that call; none was made when the payload failed to open. -/
theorem StepFails.strict_abort {env : Env} {es : ExtractSetting} {d : GoString} {h : History}
    {f : File} {e : Error} (hfail : StepFails env es d h f e)
    (hI : es.IgnoreError = false)
    (hc : env.IsRelativePath d (Join d f.Name) = true) :
    ∃ b, extractEntry env es d h f = (h ++ b, some (.error e)) ∧ materialised b = [] ∧
      attempted b = (if reachesCall env f then [Join d f.Name] else []) ∧
      (IsDir f.Mode = false → (∃ e', f.Open env = .error e') → attempted b = []) := by
  cases hfail with
  | mkdir hd hM =>
    refine ⟨[.MkdirAll (Join d f.Name) f.Mode (some e)], ?_, ?_, ?_, ?_⟩
    · rw [extractEntry_dir env es d h f hc hd, hM]; simp [hI]
    · simp [materialised, Event.done, Event.result]
    · simp [reachesCall, hd, attempted, Event.target]
    · intro hd'; rw [hd] at hd'; cases hd'
  | openPayload h1 hd hcall hO =>
    obtain ⟨ob, res, hcall', hob⟩ := callOnEntry_observer es h f
    rw [hcall] at hcall'
    obtain ⟨rfl, rfl⟩ := Prod.mk.inj hcall'
    refine ⟨ob ++ [.Open f.Name (some e)], ?_, ?_, ?_, ?_⟩
    · rw [extractEntry_payload env es d h f hc hd, hcall]
      cases hs : (f.Mode &&& ModeSymlink != 0) <;>
        simp [extractSymlink, extractFile, hO, afterExtract, hI]
    · rw [materialised_append, hob.quiet.2]; simp [materialised, Event.done, Event.target]
    · rw [attempted_append, hob.quiet.1]; simp [reachesCall, hd, hO, attempted, Event.target]
    · intro _ _
      rw [attempted_append, hob.quiet.1]; simp [attempted, Event.target]
  | readLink h1 r lnk hd hcall hs hO hRd =>
    obtain ⟨ob, res, hcall', hob⟩ := callOnEntry_observer es h f
    rw [hcall] at hcall'
    obtain ⟨rfl, rfl⟩ := Prod.mk.inj hcall'
    refine ⟨ob ++ [.Open f.Name none], ?_, ?_, ?_, ?_⟩
    · rw [extractEntry_payload env es d h f hc hd, hcall]
      simp [hs, extractSymlink, hO, hRd, afterExtract, hI]
    · rw [materialised_append, hob.quiet.2]; simp [materialised, Event.done, Event.target]
    · rw [attempted_append, hob.quiet.1]
      simp [reachesCall, hd, hO, hs, hRd, attempted, Event.target]
    · intro _ _
      rw [attempted_append, hob.quiet.1]; simp [attempted, Event.target]
  | link h1 r lnk hd hcall hs hO hRd hL =>
    obtain ⟨ob, res, hcall', hob⟩ := callOnEntry_observer es h f
    rw [hcall] at hcall'
    obtain ⟨rfl, rfl⟩ := Prod.mk.inj hcall'
    refine ⟨ob ++ [.Open f.Name none,
      .SymbolicLink (linkTarget env.unicode (Join d f.Name) lnk) (Join d f.Name) (some e)],
      ?_, ?_, ?_, ?_⟩
    · rw [extractEntry_payload env es d h f hc hd, hcall]
      rw [List.append_assoc] at hL
      simp [hs, extractSymlink_linked env _ _ d f r lnk hO hRd, hL, Outcome.ofError,
        afterExtract, hI]
    · rw [materialised_append, hob.quiet.2]
      simp [materialised, Event.done, Event.target, Event.result]
    · rw [attempted_append, hob.quiet.1]
      simp [reachesCall, hd, hO, hs, hRd, attempted, Event.target]
    · rintro _ ⟨e', hO'⟩
      rw [hO] at hO'; cases hO'
  | write h1 r hd hcall hs hO hW =>
    obtain ⟨ob, res, hcall', hob⟩ := callOnEntry_observer es h f
    rw [hcall] at hcall'
    obtain ⟨rfl, rfl⟩ := Prod.mk.inj hcall'
    refine ⟨ob ++ [.Open f.Name none, .WriteDisk r (Join d f.Name) f.Mode (some e)],
      ?_, ?_, ?_, ?_⟩
    · rw [extractEntry_payload env es d h f hc hd, hcall]
      rw [List.append_assoc] at hW
      simp [hs, extractFile, hO, hW, Outcome.ofError, afterExtract, hI]
    · rw [materialised_append, hob.quiet.2]
      simp [materialised, Event.done, Event.target, Event.result]
    · rw [attempted_append, hob.quiet.1]
      simp [reachesCall, hd, hO, hs, attempted, Event.target]
    · rintro _ ⟨e', hO'⟩
      rw [hO] at hO'; cases hO'

/-- C4, as the code has it. Strict mode: when the entries before an entry were
all passed with nil and a step of that entry fails (creating the directory,
opening the payload, reading or creating the link, writing the file),
`Extract` returns the error of that entry and the entries after it add
nothing. The materialising calls that succeeded are one per entry strictly
before it, in archive order, at their joined paths. The materialising calls
that were made are those, followed by the one failed call of the failing entry
when its step got as far as that call (`os.MkdirAll`, `basics.SymbolicLink`
or `basics.WriteDisk` itself failed), and by nothing when its payload failed
to open or its link text failed to read. -/
theorem C4_strict_mode_first_error (env : Env) (es : ExtractSetting) (destination : GoString)
    (pre post : List File) (f : File) (t1 : History) (e : Error)
    (hI : es.IgnoreError = false)
    (hpre : Extract env es pre destination = (t1, .nil))
    (hc : env.IsRelativePath destination (Join destination f.Name) = true)
    (hfail : StepFails env es destination t1 f e) :
    ∃ b, Extract env es (pre ++ f :: post) destination = (t1 ++ b, .error e) ∧
      materialised (t1 ++ b) = pre.map (fun g => Join destination g.Name) ∧
      attempted t1 = pre.map (fun g => Join destination g.Name) ∧
      attempted (t1 ++ b) =
        pre.map (fun g => Join destination g.Name) ++
          (if reachesCall env f then [Join destination f.Name] else []) ∧
      (IsDir f.Mode = false → (∃ e', f.Open env = .error e') →
        attempted (t1 ++ b) = pre.map (fun g => Join destination g.Name)) := by
  obtain ⟨b, hE, hm, hex, ha⟩ := hfail.strict_abort hI hc
  unfold Extract at hpre
  obtain ⟨blocks, ht1, hF⟩ := extractLoop_nil_blocks env es destination pre [] t1 hpre
  obtain ⟨hdone, hatt⟩ := strict_blocks_done hI hF
  simp only [List.nil_append] at ht1
  refine ⟨b, ?_, ?_, ?_, ?_, ?_⟩
  · unfold Extract
    rw [extractLoop_append, hpre]
    simp [extractLoop, hE]
  · rw [materialised_append, hm, ht1, hdone]; simp
  · rw [ht1, hatt]
  · rw [attempted_append, hex, ht1, hatt]
  · intro hd hO
    rw [attempted_append, ha hd hO, ht1, hatt]; simp

theorem crcLink_read :
    ReadAllLimit ⟨List.replicate linkCap 97, some .ErrChecksum, true⟩ linkCap =
      (List.replicate linkCap 97, some .ErrChecksum) := by
  have h0 : linkCap ≠ 0 := by decide
  simp [ReadAllLimit, h0]

/-- Strict runs that fail in each of the five ways. In `faultyEnv`: the
directory `locked/` cannot be made, the link `a/taken` cannot be created and
`docs/big.bin` cannot be written, and each of these failed calls is in the
history; `docs/bad.bin` (method code 255) fails to open, `a/broken` breaks off
while its link text is read, and `a/crc` reports a wrong checksum with the last
of its 32678 bytes, and for these three no materialising call is made. -/
theorem C4_strict_mode_first_error_witness :
    Extract faultyEnv strict ([dirEntry] ++ lockedDir :: [fileEntry]) root =
      ([.MkdirAll (str "/tmp/out/docs") dirEntry.Mode none,
        .MkdirAll (str "/tmp/out/locked") lockedDir.Mode (some (.other 13))],
       .error (.other 13)) ∧
    Extract faultyEnv strict ([dirEntry, fileEntry] ++ badEntry :: [bigEntry]) root =
      ([.MkdirAll (str "/tmp/out/docs") dirEntry.Mode none,
        .Open (str "docs/readme.txt") none,
        .WriteDisk ⟨str "hello", none, false⟩ (str "/tmp/out/docs/readme.txt") 0o644 none,
        .Open (str "docs/bad.bin") (some .ErrAlgorithm)], .error .ErrAlgorithm) ∧
    Extract faultyEnv strict ([dirEntry] ++ brokenLink :: [fileEntry]) root =
      ([.MkdirAll (str "/tmp/out/docs") dirEntry.Mode none,
        .Open (str "a/broken") none], .error (.other 5)) ∧
    Extract faultyEnv strict ([dirEntry] ++ takenLink :: [fileEntry]) root =
      ([.MkdirAll (str "/tmp/out/docs") dirEntry.Mode none,
        .Open (str "a/taken") none,
        .SymbolicLink (str "/tmp/out/b/target") (str "/tmp/out/a/taken") (some (.other 17))],
       .error (.other 17)) ∧
    Extract faultyEnv strict ([dirEntry, fileEntry] ++ bigEntry :: [linkEntry]) root =
      ([.MkdirAll (str "/tmp/out/docs") dirEntry.Mode none,
        .Open (str "docs/readme.txt") none,
        .WriteDisk ⟨str "hello", none, false⟩ (str "/tmp/out/docs/readme.txt") 0o644 none,
        .Open (str "docs/big.bin") none,
        .WriteDisk ⟨str "0123456789", none, false⟩ (str "/tmp/out/docs/big.bin") 0o644
          (some (.other 28))], .error (.other 28)) ∧
    (∃ b, Extract faultyEnv strict ([dirEntry] ++ lockedDir :: [fileEntry]) root =
        ((Extract faultyEnv strict [dirEntry] root).1 ++ b, .error (.other 13)) ∧
      attempted ((Extract faultyEnv strict [dirEntry] root).1 ++ b) =
        [str "/tmp/out/docs", str "/tmp/out/locked"] ∧
      materialised ((Extract faultyEnv strict [dirEntry] root).1 ++ b) =
        [str "/tmp/out/docs"]) ∧
    (∃ b, Extract faultyEnv strict ([dirEntry, fileEntry] ++ badEntry :: [bigEntry]) root =
        ((Extract faultyEnv strict [dirEntry, fileEntry] root).1 ++ b, .error .ErrAlgorithm) ∧
      attempted ((Extract faultyEnv strict [dirEntry, fileEntry] root).1 ++ b) =
        [str "/tmp/out/docs", str "/tmp/out/docs/readme.txt"] ∧
      materialised ((Extract faultyEnv strict [dirEntry, fileEntry] root).1 ++ b) =
        [str "/tmp/out/docs", str "/tmp/out/docs/readme.txt"]) ∧
    (∃ b, Extract faultyEnv strict ([dirEntry] ++ brokenLink :: [fileEntry]) root =
        ((Extract faultyEnv strict [dirEntry] root).1 ++ b, .error (.other 5)) ∧
      attempted ((Extract faultyEnv strict [dirEntry] root).1 ++ b) = [str "/tmp/out/docs"]) ∧
    (∃ b, Extract faultyEnv strict ([] ++ crcLink :: [fileEntry]) root =
        ([] ++ b, .error .ErrChecksum) ∧
      attempted ([] ++ b) = [] ∧ materialised ([] ++ b) = []) ∧
    (∃ b, Extract faultyEnv strict ([dirEntry] ++ takenLink :: [fileEntry]) root =
        ((Extract faultyEnv strict [dirEntry] root).1 ++ b, .error (.other 17)) ∧
      attempted ((Extract faultyEnv strict [dirEntry] root).1 ++ b) =
        [str "/tmp/out/docs", str "/tmp/out/a/taken"] ∧
      materialised ((Extract faultyEnv strict [dirEntry] root).1 ++ b) =
        [str "/tmp/out/docs"]) ∧
    (∃ b, Extract faultyEnv strict ([dirEntry, fileEntry] ++ bigEntry :: [linkEntry]) root =
        ((Extract faultyEnv strict [dirEntry, fileEntry] root).1 ++ b, .error (.other 28)) ∧
      attempted ((Extract faultyEnv strict [dirEntry, fileEntry] root).1 ++ b) =
        [str "/tmp/out/docs", str "/tmp/out/docs/readme.txt", str "/tmp/out/docs/big.bin"] ∧
      materialised ((Extract faultyEnv strict [dirEntry, fileEntry] root).1 ++ b) =
        [str "/tmp/out/docs", str "/tmp/out/docs/readme.txt"]) := by
  refine ⟨by decide, by decide, by decide, by decide, by decide, ?_, ?_, ?_, ?_, ?_, ?_⟩
  · obtain ⟨b, h1, h2, -, h4, -⟩ :=
      C4_strict_mode_first_error faultyEnv strict root [dirEntry] [fileEntry] lockedDir
        _ (.other 13) rfl rfl (by decide) (.mkdir (.other 13) (by decide) (by decide))
    exact ⟨b, h1, h4.trans (by decide), h2.trans (by decide)⟩
  · obtain ⟨b, h1, h2, -, h4, -⟩ :=
      C4_strict_mode_first_error faultyEnv strict root [dirEntry, fileEntry] [bigEntry] badEntry
        _ .ErrAlgorithm rfl rfl (by decide) (.openPayload .ErrAlgorithm _ (by decide) rfl rfl)
    exact ⟨b, h1, h4.trans (by decide), h2.trans (by decide)⟩
  · obtain ⟨b, h1, -, -, h4, -⟩ :=
      C4_strict_mode_first_error faultyEnv strict root [dirEntry] [fileEntry] brokenLink
        _ (.other 5) rfl rfl (by decide)
        (.readLink (.other 5) _ ⟨str "../b/tar", some (.other 5), false⟩ (str "../b/tar")
          (by decide) rfl (by decide) rfl (by decide))
    exact ⟨b, h1, h4.trans (by decide)⟩
  · obtain ⟨b, h1, h2, -, h4, -⟩ :=
      C4_strict_mode_first_error faultyEnv strict root [] [fileEntry] crcLink
        [] .ErrChecksum rfl rfl (by decide)
        (.readLink .ErrChecksum _ ⟨List.replicate linkCap 97, some .ErrChecksum, true⟩
          (List.replicate linkCap 97) (by decide) rfl (by decide) rfl crcLink_read)
    refine ⟨b, h1, ?_, h2⟩
    rw [h4]
    have hr : reachesCall faultyEnv crcLink = false := by
      have hO : crcLink.Open faultyEnv =
          .ok ⟨List.replicate linkCap 97, some .ErrChecksum, true⟩ := rfl
      have hd : IsDir crcLink.Mode = false := by decide
      have hs : (crcLink.Mode &&& ModeSymlink != 0) = true := by decide
      simp [reachesCall, hd, hO, hs, crcLink_read]
    simp [hr]
  · obtain ⟨b, h1, h2, -, h4, -⟩ :=
      C4_strict_mode_first_error faultyEnv strict root [dirEntry] [fileEntry] takenLink
        _ (.other 17) rfl rfl (by decide)
        (.link (.other 17) _ ⟨str "../b/target", none, false⟩ (str "../b/target")
          (by decide) rfl (by decide) rfl (by decide) (by decide))
    exact ⟨b, h1, h4.trans (by decide), h2.trans (by decide)⟩
  · obtain ⟨b, h1, h2, -, h4, -⟩ :=
      C4_strict_mode_first_error faultyEnv strict root [dirEntry, fileEntry] [linkEntry] bigEntry
        _ (.other 28) rfl rfl (by decide)
        (.write (.other 28) _ ⟨str "0123456789", none, false⟩
          (by decide) rfl (by decide) rfl (by decide))
    exact ⟨b, h1, h4.trans (by decide), h2.trans (by decide)⟩

/-- The claim C4 fails on a strict run in which `basics.WriteDisk` fails for
`docs/big.bin`: the step of that entry fails and `Extract` returns its error,
yet a materialising call was made for the failing entry itself, so the entries
with a materialising call are not just the two entries before it. -/
theorem C4_counterexample :
    strict.IgnoreError = false ∧
    Extract faultyEnv strict [dirEntry, fileEntry] root =
      ([.MkdirAll (str "/tmp/out/docs") dirEntry.Mode none,
        .Open (str "docs/readme.txt") none,
        .WriteDisk ⟨str "hello", none, false⟩ (str "/tmp/out/docs/readme.txt") 0o644 none],
       .nil) ∧
    faultyEnv.WriteDisk
      ([.MkdirAll (str "/tmp/out/docs") dirEntry.Mode none,
        .Open (str "docs/readme.txt") none,
        .WriteDisk ⟨str "hello", none, false⟩ (str "/tmp/out/docs/readme.txt") 0o644 none,
        .Open (str "docs/big.bin") none])
      ⟨str "0123456789", none, false⟩ (Join root bigEntry.Name) bigEntry.Mode =
        some (.other 28) ∧
    (Extract faultyEnv strict [dirEntry, fileEntry, bigEntry, linkEntry] root).2 =
      .error (.other 28) ∧
    attempted (Extract faultyEnv strict [dirEntry, fileEntry, bigEntry, linkEntry] root).1 =
      [str "/tmp/out/docs", str "/tmp/out/docs/readme.txt", str "/tmp/out/docs/big.bin"] ∧
    [dirEntry, fileEntry].map (fun g => Join root g.Name) =
      [str "/tmp/out/docs", str "/tmp/out/docs/readme.txt"] ∧
    Join root bigEntry.Name = str "/tmp/out/docs/big.bin" ∧
    attempted (Extract faultyEnv strict [dirEntry, fileEntry, bigEntry, linkEntry] root).1 ≠
      [dirEntry, fileEntry].map (fun g => Join root g.Name) := by
  decide

/-! ## The observer -/

theorem ObserverCalls.of_callback {es : ExtractSetting} {h : History} {f : File} {ob : History}
    {cb : History → GoString → File → Option Error}
    (hob : ObserverCalls es h f ob none) (hcb : es.OnEntry = some cb) :
    ob = [.OnEntry f.Name f.Mode none] := by
  rcases hob with ⟨h0, -, -⟩ | ⟨cb', -, rfl, hres⟩
  · rw [hcb] at h0; cases h0
  · rw [← hres]

/-- With an observer, an entry that the loop goes on past adds an
`EntryBlock`. -/
theorem EntryRun.block {env : Env} {es : ExtractSetting} {d : GoString} {h : History}
    {f : File} {b : History} {cb : History → GoString → File → Option Error}
    (hR : EntryRun env es d h f b none) (hcb : es.OnEntry = some cb) :
    EntryBlock env d f b := by
  unfold EntryBlock
  generalize ho : (none : Option Outcome) = o at hR
  cases hR with
  | escape hc => simp [hc]
  | dir hc hd => simp [hc, hd]
  | rejected => simp at ho
  | openFailed ob e hc hd hob hO =>
    rw [hob.of_callback hcb]
    simp [hc, hd, Event.isPayloadOp]
  | readFailed ob r lnk e hc hd hob hs hO hRd =>
    rw [hob.of_callback hcb]
    simp [hc, hd, Event.isPayloadOp]
  | linked ob r lnk hc hd hob hs hO hRd =>
    rw [hob.of_callback hcb]
    simp [hc, hd, Event.isPayloadOp]
  | written ob r hc hd hob hs hO =>
    rw [hob.of_callback hcb]
    simp [hc, hd, Event.isPayloadOp]

theorem observed_payloadOps (name out : GoString) (rest : History)
    (hrest : ∀ ev ∈ rest, ev.isPayloadOp name out = true) : observed rest = [] := by
  induction rest with
  | nil => rfl
  | cons ev rest ih =>
    have hev := hrest ev (by simp)
    have hr := ih (fun x hx => hrest x (by simp [hx]))
    cases ev <;> simp_all [observed, Event.observedName, Event.isPayloadOp]

/-- The names a block shows to the observer: the entry's name for a contained
entry that is not a directory, nothing otherwise. -/
theorem EntryBlock.observed {env : Env} {d : GoString} {f : File} {b : History}
    (hB : EntryBlock env d f b) :
    observed b =
      if (env.IsRelativePath d (Join d f.Name) && !IsDir f.Mode) = true then [f.Name] else [] := by
  unfold EntryBlock at hB
  cases hc : env.IsRelativePath d (Join d f.Name) with
  | false =>
    simp only [hc, if_true] at hB
    simp [hB, Zip.observed]
  | true =>
    cases hd : IsDir f.Mode with
    | true =>
      simp only [hc, hd, if_true, Bool.true_eq_false, if_false] at hB
      obtain ⟨res, rfl⟩ := hB
      simp [Zip.observed, Event.observedName]
    | false =>
      simp only [hc, hd, Bool.true_eq_false, Bool.false_eq_true, if_false] at hB
      obtain ⟨rest, rfl, hrest⟩ := hB
      have := observed_payloadOps _ _ rest hrest
      simp only [Zip.observed] at this
      simp [Zip.observed, Event.observedName, this]

theorem observed_blocks {env : Env} {d : GoString} {files : List File} {blocks : List History}
    (hF : List.Forall₂ (EntryBlock env d) files blocks) :
    observed blocks.flatten =
      (files.filter (fun f => env.IsRelativePath d (Join d f.Name) && !IsDir f.Mode)).map
        File.Name := by
  induction hF with
  | nil => rfl
  | @cons f b fs bs hB _ ih =>
    have hb := hB.observed
    simp only [Zip.observed] at hb ih
    simp only [Zip.observed, List.flatten, List.filterMap_append, hb, ih, List.filter_cons]
    cases hcond : (env.IsRelativePath d (Join d f.Name) && !IsDir f.Mode) <;> simp

theorem observed_append (a b : History) : observed (a ++ b) = observed a ++ observed b := by
  simp [observed]

/-- The names an entry shows to a configured observer, whatever happens next:
its own name when it is contained and not a directory, nothing otherwise. -/
theorem EntryRun.observed_eq {env : Env} {es : ExtractSetting} {d : GoString} {h : History}
    {f : File} {b : History} {o : Option Outcome}
    {cb : History → GoString → File → Option Error}
    (hR : EntryRun env es d h f b o) (hcb : es.OnEntry = some cb) :
    observed b =
      if (env.IsRelativePath d (Join d f.Name) && !IsDir f.Mode) = true then [f.Name] else [] := by
  have hob : ∀ {ob : History} {res : Option Error}, ObserverCalls es h f ob res →
      observed ob = [f.Name] := by
    intro ob res hobs
    rcases hobs with ⟨h0, -, -⟩ | ⟨cb', -, rfl, -⟩
    · rw [hcb] at h0; cases h0
    · simp [observed, Event.observedName]
  cases hR with
  | escape hc => simp [hc, observed]
  | dir hc hd => simp [hc, hd, observed, Event.observedName]
  | rejected ob e hc hd hobs => rw [hob hobs]; simp [hc, hd]
  | openFailed ob e hc hd hobs hO =>
    rw [observed_append, hob hobs]
    simp [hc, hd, observed, Event.observedName]
  | readFailed ob r lnk e hc hd hobs hs hO hRd =>
    rw [observed_append, hob hobs]
    simp [hc, hd, observed, Event.observedName]
  | linked ob r lnk hc hd hobs hs hO hRd =>
    rw [observed_append, hob hobs]
    simp [hc, hd, observed, Event.observedName]
  | written ob r hc hd hobs hs hO =>
    rw [observed_append, hob hobs]
    simp [hc, hd, observed, Event.observedName]

/-- The names shown to the observer by any run, complete or not, are a prefix
of the names of the contained entries that are not directories. -/
theorem extractLoop_observed_prefix (env : Env) (es : ExtractSetting) (d : GoString)
    (cb : History → GoString → File → Option Error) (hcb : es.OnEntry = some cb)
    (files : List File) (h : History) :
    ∃ t, observed (extractLoop env es d files h).1 = observed h ++ t ∧
      t <+: (files.filter (fun f =>
        env.IsRelativePath d (Join d f.Name) && !IsDir f.Mode)).map File.Name := by
  induction files generalizing h with
  | nil => exact ⟨[], by simp [extractLoop], by simp⟩
  | cons f fs ih =>
    obtain ⟨b, o, hE, hR⟩ := extractEntry_run env es d h f
    have hb := hR.observed_eq hcb
    have hexp : ((f :: fs).filter (fun f =>
          env.IsRelativePath d (Join d f.Name) && !IsDir f.Mode)).map File.Name =
        observed b ++ (fs.filter (fun f =>
          env.IsRelativePath d (Join d f.Name) && !IsDir f.Mode)).map File.Name := by
      rw [hb, List.filter_cons]
      cases hcond : (env.IsRelativePath d (Join d f.Name) && !IsDir f.Mode) <;> simp
    simp only [extractLoop, hE]
    cases o with
    | some o =>
      refine ⟨observed b, observed_append h b, ?_⟩
      rw [hexp]
      exact List.prefix_append _ _
    | none =>
      obtain ⟨t, ht, hpre⟩ := ih (h ++ b)
      refine ⟨observed b ++ t, by rw [ht, observed_append, List.append_assoc], ?_⟩
      rw [hexp]
      exact (List.prefix_append_right_inj _).2 hpre

/-- C8. In a run with an `OnEntry` callback that returns nil, the names passed
to the callback are, in archive order, the names of the entries that are not
directories and whose joined path passes the containment check; the history
is one block per entry, in which such an entry has its accepted `OnEntry` call
first and after it only calls on its own payload, a directory has its
`os.MkdirAll` alone and an escaping entry has nothing. In any run, also one
that ends early, the names passed are a prefix of that sequence. -/
theorem C8_observer_sequence (env : Env) (es : ExtractSetting) (files : List File)
    (destination : GoString) (cb : History → GoString → File → Option Error) (h' : History)
    (hcb : es.OnEntry = some cb)
    (hrun : Extract env es files destination = (h', .nil)) :
    observed h' =
      (files.filter (fun f =>
        env.IsRelativePath destination (Join destination f.Name) && !IsDir f.Mode)).map
        File.Name ∧
    (∃ blocks : List History, h' = blocks.flatten ∧
      List.Forall₂ (EntryBlock env destination) files blocks) ∧
    (∀ table : List File,
      observed (Extract env es table destination).1 <+:
        (table.filter (fun f =>
          env.IsRelativePath destination (Join destination f.Name) && !IsDir f.Mode)).map
          File.Name) := by
  refine ⟨?_, ?_, ?_⟩
  · unfold Extract at hrun
    obtain ⟨blocks, hh, hF⟩ := extractLoop_nil_blocks env es destination files [] h' hrun
    simp only [List.nil_append] at hh
    have hB : List.Forall₂ (EntryBlock env destination) files blocks :=
      hF.imp (fun _ _ hx => hx.elim (fun _ hr => hr.block hcb))
    rw [hh]; exact observed_blocks hB
  · unfold Extract at hrun
    obtain ⟨blocks, hh, hF⟩ := extractLoop_nil_blocks env es destination files [] h' hrun
    simp only [List.nil_append] at hh
    exact ⟨blocks, hh, hF.imp (fun _ _ hx => hx.elim (fun _ hr => hr.block hcb))⟩
  · intro table
    obtain ⟨t, ht, hpre⟩ := extractLoop_observed_prefix env es destination cb hcb table []
    unfold Extract
    rw [ht]
    simpa [observed] using hpre

/-- An archive with a directory, a file, a link and the traversal attempt,
extracted in tolerant mode under an observer that accepts everything: the run
returns nil and the observer has seen the file and the link, in that order. -/
theorem C8_observer_sequence_witness :
    Extract sampleEnv ⟨true, some (fun _ _ _ => none)⟩
        [dirEntry, fileEntry, evilEntry, linkEntry] root =
      ([.MkdirAll (str "/tmp/out/docs") dirEntry.Mode none,
        .OnEntry (str "docs/readme.txt") 0o644 none,
        .Open (str "docs/readme.txt") none,
        .WriteDisk ⟨str "hello", none, false⟩ (str "/tmp/out/docs/readme.txt") 0o644 none,
        .OnEntry (str "a/link") linkEntry.Mode none,
        .Open (str "a/link") none,
        .SymbolicLink (str "/tmp/out/b/target") (str "/tmp/out/a/link") none], .nil) ∧
    observed (Extract sampleEnv ⟨true, some (fun _ _ _ => none)⟩
        [dirEntry, fileEntry, evilEntry, linkEntry] root).1 =
      [str "docs/readme.txt", str "a/link"] ∧
    ([dirEntry, fileEntry, evilEntry, linkEntry].filter (fun f =>
        sampleEnv.IsRelativePath root (Join root f.Name) && !IsDir f.Mode)).map File.Name =
      [str "docs/readme.txt", str "a/link"] ∧
    observed (Extract sampleEnv ⟨true, some (fun _ _ _ => none)⟩
        [dirEntry, fileEntry, evilEntry, linkEntry] root).1 =
      ([dirEntry, fileEntry, evilEntry, linkEntry].filter (fun f =>
        sampleEnv.IsRelativePath root (Join root f.Name) && !IsDir f.Mode)).map File.Name :=
  ⟨by decide, by decide, by decide,
    (C8_observer_sequence sampleEnv ⟨true, some (fun _ _ _ => none)⟩
      [dirEntry, fileEntry, evilEntry, linkEntry] root (fun _ _ _ => none) _ rfl
      (by decide)).1⟩

/-! ## Symbolic links -/

theorem ReadAllLimit_long (r : Stream) (hlen : linkCap < r.data.length) :
    ReadAllLimit r linkCap = (r.data.take linkCap, none) := by
  simp [ReadAllLimit, hlen]

theorem asciiSpace_of_mem {x : Nat} (hx : x ∈ whiteSpace) : asciiSpace x = true := by
  simp only [whiteSpace, List.mem_cons, List.mem_singleton, List.not_mem_nil, or_false] at hx
  rcases hx with rfl | rfl | rfl | rfl | rfl | rfl <;> rfl

theorem edgeByte_spec {c : Nat} (hc : edgeByte c = true) :
    asciiSpace c = false ∧ ¬ c ≥ RuneSelf := by
  simp only [edgeByte, whiteSpace, Bool.and_eq_true, decide_eq_true_eq, Bool.not_eq_true',
    List.contains_eq_any_beq, List.any_cons, List.any_nil, Bool.or_false, Bool.or_eq_false_iff,
    beq_eq_false_iff_ne, ne_eq] at hc
  obtain ⟨hlt, h9, h10, h11, h12, h13, h32⟩ := hc
  refine ⟨?_, by simp only [RuneSelf]; omega⟩
  simp [asciiSpace, h9, h10, h11, h12, h13, h32]

/-- Go `strings.TrimSpace` removes the ASCII white space around a text that
starts and ends with an ASCII byte that is not white space, and nothing else. -/
theorem TrimSpace_padded (u : Unicode) (lead core trail : GoString)
    (hlead : ∀ x ∈ lead, x ∈ whiteSpace) (htrail : ∀ x ∈ trail, x ∈ whiteSpace)
    (hcore : AsciiEdged core = true) :
    TrimSpace u (lead ++ core ++ trail) = core := by
  unfold AsciiEdged at hcore
  cases hc : core with
  | nil => simp [hc] at hcore
  | cons c cs =>
    cases hr : core.reverse with
    | nil => simp [hc] at hr
    | cons c' cs' =>
      rw [hc] at hr
      simp only [hc, hr, Bool.and_eq_true] at hcore
      obtain ⟨h1, h1'⟩ := edgeByte_spec hcore.1
      obtain ⟨h2, h2'⟩ := edgeByte_spec hcore.2
      unfold TrimSpace
      rw [List.append_assoc, dropWhile_append_all asciiSpace lead _
        (fun x hx => asciiSpace_of_mem (hlead x hx)), List.cons_append,
        List.dropWhile_cons_of_neg (by simp [h1])]
      simp only [h1', if_false]
      unfold trimSpaceRight
      have hrev : (c :: (cs ++ trail)).reverse = trail.reverse ++ (c' :: cs') := by
        rw [← List.cons_append, List.reverse_append, hr]
      rw [hrev, dropWhile_append_all asciiSpace trail.reverse _
        (fun x hx => asciiSpace_of_mem (htrail x (by simpa using hx))),
        List.dropWhile_cons_of_neg (by simp [h2])]
      simp only [h2', if_false]
      rw [← hr, List.reverse_reverse]

theorem paddedText_length : paddedText.length = linkCap := by
  have h11 : (str "../b/target").length = 11 := by decide
  have hcap : linkCap = 32678 := rfl
  simp only [paddedText, List.length_append, List.length_replicate, List.length_singleton, h11,
    hcap]

theorem paddedPayload_take : paddedPayload.take linkCap = paddedText := by
  unfold paddedPayload
  exact List.take_left' paddedText_length

theorem paddedPayload_long : linkCap < paddedPayload.length := by
  have h10 : (str "/../../etc").length = 10 := by decide
  simp only [paddedPayload, List.length_append, paddedText_length, h10]
  omega

theorem paddedText_trim (u : Unicode) : TrimSpace u paddedText = str "../b/target" := by
  unfold paddedText
  refine TrimSpace_padded u [9] (str "../b/target") _ (by decide) ?_ (by decide)
  intro x hx
  rw [List.eq_of_mem_replicate hx]
  decide

theorem paddedPayload_trim (u : Unicode) :
    TrimSpace u paddedPayload =
      str "../b/target" ++ List.replicate (linkCap - 12) 32 ++ str "/../../etc" := by
  have hshape : paddedPayload =
      [9] ++ (str "../b/target" ++ List.replicate (linkCap - 12) 32 ++ str "/../../etc") ++ [] := by
    simp [paddedPayload, paddedText]
  rw [hshape]
  refine TrimSpace_padded u [9] _ [] (by decide) (by simp) ?_
  have hhead : str "../b/target" ++ List.replicate (linkCap - 12) 32 ++ str "/../../etc" =
      46 :: (str "./b/target" ++ List.replicate (linkCap - 12) 32 ++ str "/../../etc") := rfl
  have hlast : (str "../b/target" ++ List.replicate (linkCap - 12) 32 ++ str "/../../etc").reverse =
      99 :: (str "/../../et").reverse ++
        (str "../b/target" ++ List.replicate (linkCap - 12) 32).reverse := by
    rw [List.reverse_append]; rfl
  unfold AsciiEdged
  rw [hlast, hhead]
  decide

/-- C6, as the code has it. A symlink payload longer than the cap raises no
error: `extractSymlink` reads the first `linkCap` bytes only, which is a
proper prefix of the payload, calls `basics.SymbolicLink` with the target made
from that prefix after `strings.TrimSpace`, and returns what the call
returns. -/
theorem C6_long_payload_truncated (env : Env) (h : History) (p destination : GoString)
    (zf : File) (r : Stream)
    (hO : zf.Open env = .ok r) (hlen : linkCap < r.data.length) :
    extractSymlink env h p destination zf =
      (h ++ [.Open zf.Name none] ++
        [.SymbolicLink (linkTarget env.unicode p (r.data.take linkCap)) p
          (env.SymbolicLink (h ++ [.Open zf.Name none])
            (linkTarget env.unicode p (r.data.take linkCap)) p)],
       .ofError (env.SymbolicLink (h ++ [.Open zf.Name none])
          (linkTarget env.unicode p (r.data.take linkCap)) p)) ∧
    (r.data.take linkCap).length = linkCap ∧
    r.data.take linkCap ≠ r.data := by
  refine ⟨extractSymlink_linked env h p destination zf r _ hO (ReadAllLimit_long r hlen), ?_, ?_⟩
  · simp [List.length_take, Nat.le_of_lt hlen]
  · intro heq
    have := congrArg List.length heq
    simp [List.length_take] at this
    omega

/-- The link `a/long`, whose payload is a tab, `../b/target`, spaces up to the
cap of 32678 bytes and then `/../../etc`: the text read is the first 32678
bytes, it trims to `../b/target`, and the link target made from it is
`/tmp/out/b/target`. -/
theorem C6_long_payload_truncated_witness :
    linkCap = 32678 ∧
    paddedLink.Open sampleEnv = .ok ⟨paddedPayload, none, false⟩ ∧
    linkCap < paddedPayload.length ∧
    paddedPayload.take linkCap = [9] ++ str "../b/target" ++ List.replicate (linkCap - 12) 32 ∧
    TrimSpace sampleEnv.unicode (paddedPayload.take linkCap) = str "../b/target" ∧
    linkTarget sampleEnv.unicode (str "/tmp/out/a/long") (paddedPayload.take linkCap) =
      str "/tmp/out/b/target" ∧
    extractSymlink sampleEnv [] (str "/tmp/out/a/long") root paddedLink =
      ([] ++ [.Open paddedLink.Name none] ++
        [.SymbolicLink (linkTarget sampleEnv.unicode (str "/tmp/out/a/long")
            (paddedPayload.take linkCap)) (str "/tmp/out/a/long")
          (sampleEnv.SymbolicLink ([] ++ [.Open paddedLink.Name none])
            (linkTarget sampleEnv.unicode (str "/tmp/out/a/long")
              (paddedPayload.take linkCap)) (str "/tmp/out/a/long"))],
       .ofError (sampleEnv.SymbolicLink ([] ++ [.Open paddedLink.Name none])
          (linkTarget sampleEnv.unicode (str "/tmp/out/a/long")
            (paddedPayload.take linkCap)) (str "/tmp/out/a/long"))) := by
  have htrim : TrimSpace sampleEnv.unicode (paddedPayload.take linkCap) = str "../b/target" := by
    rw [paddedPayload_take]; exact paddedText_trim _
  have htarget : linkTarget sampleEnv.unicode (str "/tmp/out/a/long")
      (paddedPayload.take linkCap) = str "/tmp/out/b/target" := by
    unfold linkTarget
    rw [htrim]
    decide
  exact ⟨rfl, rfl, paddedPayload_long, paddedPayload_take, htrim, htarget,
    (C6_long_payload_truncated sampleEnv [] (str "/tmp/out/a/long") root paddedLink
      ⟨paddedPayload, none, false⟩ rfl paddedPayload_long).1⟩

/-- The claim C6 fails on the link `a/long`. Its payload is longer than the
cap, yet `extractSymlink` returns nil, not an error, and it has created the
link: the target `/tmp/out/b/target` comes from the text `../b/target`, which
is what the first 32678 bytes of the payload trim to and not what the payload
trims to. -/
theorem C6_counterexample :
    paddedLink.body = .ok ⟨paddedPayload, none, false⟩ ∧
    linkCap < paddedPayload.length ∧
    extractSymlink sampleEnv [] (str "/tmp/out/a/long") root paddedLink =
      ([.Open (str "a/long") none,
        .SymbolicLink (str "/tmp/out/b/target") (str "/tmp/out/a/long") none], .nil) ∧
    TrimSpace sampleEnv.unicode (paddedPayload.take linkCap) = str "../b/target" ∧
    TrimSpace sampleEnv.unicode paddedPayload =
      str "../b/target" ++ List.replicate (linkCap - 12) 32 ++ str "/../../etc" := by
  have htrim : TrimSpace sampleEnv.unicode (paddedPayload.take linkCap) = str "../b/target" := by
    rw [paddedPayload_take]; exact paddedText_trim _
  have htarget : linkTarget sampleEnv.unicode (str "/tmp/out/a/long")
      (paddedPayload.take linkCap) = str "/tmp/out/b/target" := by
    unfold linkTarget
    rw [htrim]
    decide
  refine ⟨rfl, paddedPayload_long, ?_, htrim, paddedPayload_trim _⟩
  have hO : paddedLink.Open sampleEnv = .ok ⟨paddedPayload, none, false⟩ := rfl
  have hname : paddedLink.Name = str "a/long" := rfl
  rw [extractSymlink_linked sampleEnv [] _ root paddedLink _ _ hO
    (ReadAllLimit_long ⟨paddedPayload, none, false⟩ paddedPayload_long), htarget, hname]
  rfl

/-! ## The nil stream of `extractFile` -/

/-- C9. On the regular file with the unsupported method code 255 the payload
fails to open. In strict mode `extractFile` returns the open error without
calling `basics.WriteDisk`. In tolerant mode it does not return: it panics at
`defer r.Close()` on the nil stream, again before `basics.WriteDisk`; and the
same holds for every entry whose body cannot be located. -/
theorem C9_extractFile_nil_stream (env : Env) (cb : Option (History → GoString → File → Option Error))
    (h : History) (p destination name : GoString) (mode method : Nat) (e : Error) :
    badEntry.Open sampleEnv = .error .ErrAlgorithm ∧
    extractFile sampleEnv strict [] (str "/tmp/out/docs/bad.bin") root badEntry =
      ([.Open (str "docs/bad.bin") (some .ErrAlgorithm)], .error .ErrAlgorithm) ∧
    extractFile sampleEnv tolerant [] (str "/tmp/out/docs/bad.bin") root badEntry =
      ([.Open (str "docs/bad.bin") (some .ErrAlgorithm)], .panic) ∧
    extractFile env ⟨false, cb⟩ h p destination ⟨name, mode, method, .error e⟩ =
      (h ++ [.Open name (some e)], .error e) ∧
    extractFile env ⟨true, cb⟩ h p destination ⟨name, mode, method, .error e⟩ =
      (h ++ [.Open name (some e)], .panic) :=
  ⟨rfl, by decide, by decide, rfl, rfl⟩

/-- In tolerant mode without an observer the loop body goes on past every
entry, except that it panics on a regular file whose payload fails to open. -/
theorem EntryRun.goes_on {env : Env} {d : GoString} {h : History} {f : File} {b : History}
    {o : Option Outcome} (hR : EntryRun env tolerant d h f b o) :
    o = none ∨ (o = some .panic ∧ IsDir f.Mode = false ∧
      (f.Mode &&& ModeSymlink != 0) = false ∧ ∃ e, f.Open env = .error e) := by
  cases hR with
  | escape => left; rfl
  | dir => left; cases env.MkdirAll h (Join d f.Name) f.Mode <;> rfl
  | rejected ob e hc hd hob =>
    rcases hob with ⟨-, -, hres⟩ | ⟨cb, hcb, -, -⟩
    · cases hres
    · cases hcb
  | openFailed ob e hc hd hob hO =>
    cases hs : (f.Mode &&& ModeSymlink != 0) with
    | true => left; rfl
    | false => right; exact ⟨rfl, hd, rfl, e, hO⟩
  | readFailed => left; rfl
  | linked ob r lnk =>
    left
    cases env.SymbolicLink (h ++ ob ++ [.Open f.Name none])
      (linkTarget env.unicode (Join d f.Name) lnk) (Join d f.Name) <;> rfl
  | written ob r =>
    left
    cases env.WriteDisk (h ++ ob ++ [.Open f.Name none]) r (Join d f.Name) f.Mode <;> rfl

theorem extractLoop_tolerant (env : Env) (d : GoString) (files : List File) (h : History) :
    (extractLoop env tolerant d files h).2 = .nil ∨
    ((extractLoop env tolerant d files h).2 = .panic ∧
      ∃ f ∈ files, IsDir f.Mode = false ∧ (f.Mode &&& ModeSymlink != 0) = false ∧
        ∃ e, f.Open env = .error e) := by
  induction files generalizing h with
  | nil => left; rfl
  | cons f fs ih =>
    obtain ⟨b, o, hE, hR⟩ := extractEntry_run env tolerant d h f
    simp only [extractLoop, hE]
    rcases hR.goes_on with rfl | ⟨rfl, hd, hs, hO⟩
    · rcases ih (h ++ b) with hnil | ⟨hp, g, hg, hrest⟩
      · exact Or.inl hnil
      · exact Or.inr ⟨hp, g, by simp [hg], hrest⟩
    · exact Or.inr ⟨rfl, f, by simp, hd, hs, hO⟩

/-- C5. Tolerant mode on a directory, a file, the entry with method code 255
and one more file: `Extract` does not return nil, it panics at the entry that
fails to open, and the file after it is never written, while the run without
the failing entry returns nil and writes it. For every table, a tolerant run
without observer returns nil or panics, and it panics only when the payload of
some regular file fails to open. -/
theorem C5_tolerant_mode_panics (env : Env) (files : List File) (destination : GoString) :
    Extract sampleEnv tolerant [dirEntry, fileEntry, badEntry, bigEntry] root =
      ([.MkdirAll (str "/tmp/out/docs") dirEntry.Mode none,
        .Open (str "docs/readme.txt") none,
        .WriteDisk ⟨str "hello", none, false⟩ (str "/tmp/out/docs/readme.txt") 0o644 none,
        .Open (str "docs/bad.bin") (some .ErrAlgorithm)], .panic) ∧
    attempted (Extract sampleEnv tolerant [dirEntry, fileEntry, badEntry, bigEntry] root).1 =
      [str "/tmp/out/docs", str "/tmp/out/docs/readme.txt"] ∧
    (Extract sampleEnv tolerant [dirEntry, fileEntry, bigEntry] root).2 = .nil ∧
    attempted (Extract sampleEnv tolerant [dirEntry, fileEntry, bigEntry] root).1 =
      [str "/tmp/out/docs", str "/tmp/out/docs/readme.txt", str "/tmp/out/docs/big.bin"] ∧
    ((Extract env tolerant files destination).2 = .nil ∨
      ((Extract env tolerant files destination).2 = .panic ∧
        ∃ f ∈ files, IsDir f.Mode = false ∧ (f.Mode &&& ModeSymlink != 0) = false ∧
          ∃ e, f.Open env = .error e)) :=
  ⟨by decide, by decide, by decide, by decide, extractLoop_tolerant env destination files []⟩

end Zip
